import Mathlib

/-!
# canu: buffered writer (`src/AS_UTL/writeBuffer.H`) and overlap store sorter
(`src/stores/ovStoreSorter.C`)

A shallow embedding of the two source files, followed by the properties proved about them.

Conventions of the embedding.

* `uint64` / `uint32` values are natural numbers; every arithmetic result that the source stores
  in such a variable is reduced modulo `2^64` explicitly.
* A process that stops (`exit(1)`, a failed `assert`) is a value of the result type, never a
  missing result.
* File system calls (`fopen`, `fwrite`, `unlink`, ...) succeed; the source terminates the process
  when one of them fails, and those terminations are outside the embedding.
-/

namespace Canu

/-! ## Machine integers -/

/-- Number of values of a `uint64`. -/
def U64 : Nat := 2 ^ 64

/-- Largest `uint64`. -/
def UINT64_MAX : Nat := 2 ^ 64 - 1

/-- Largest `uint32`. -/
def UINT32_MAX : Nat := 2 ^ 32 - 1

/-- A `char` of file data. -/
abbrev Byte := UInt8

/-! ## `writeBuffer` -/

/-- The object state of `class writeBuffer`, together with the one file it names.

`_file` is `true` when the `FILE *` is not `NULL`.  `_buffer` is the `_bufferMax` chars obtained
from `new char [_bufferMax]`.  `disk` is the content of the file called `_filename` in the file
system, `none` when no such file exists. -/
structure writeBuffer where
  _filemode  : String
  _file      : Bool
  _filePos   : Nat
  _bufferLen : Nat
  _bufferMax : Nat
  _buffer    : List Byte
  disk       : Option (List Byte)
deriving DecidableEq, Repr

/-- The private `writeBuffer::open`.  An open handle is left alone.  Otherwise `fopen` with a mode
starting with `a` keeps the bytes of an existing file (and creates an empty file when there is
none), any other mode reaching this point is `w`, which creates or truncates.  `AS_UTL_ftell` is
the length of what is in the file at that moment (the source comment: non-zero when appending,
zero when writing), and is added to `_filePos`. -/
def writeBuffer.open_ (b : writeBuffer) : writeBuffer :=
  if b._file then b
  else
    let content : List Byte := if b._filemode.data.head? = some 'a' then b.disk.getD [] else []
    { b with _file := true, disk := some content, _filePos := (b._filePos + content.length) % U64 }

/-- The private `writeBuffer::writeToDisk(data, length)`: nothing at all for `length == 0`,
otherwise open the file if needed and append the first `length` bytes of `data` to it. -/
def writeBuffer.writeToDisk (b : writeBuffer) (data : List Byte) (length : Nat) : writeBuffer :=
  if length = 0 then b
  else
    let b1 := b.open_
    { b1 with disk := some (b1.disk.getD [] ++ data.take length) }

/-- The private `writeBuffer::flush`. -/
def writeBuffer.flush (b : writeBuffer) : writeBuffer :=
  { b.writeToDisk b._buffer b._bufferLen with _bufferLen := 0 }

/-- The constructor `writeBuffer::writeBuffer(filename, filemode, bufferMax)` run on a file system
in which the named file is `disk`.  `none` is the `exit(1)` on an unknown mode. -/
def writeBuffer.create (disk : Option (List Byte)) (filemode : String) (bufferMax : Nat) :
    Option writeBuffer :=
  let b0 : writeBuffer :=
    { _filemode := filemode, _file := false, _filePos := 0, _bufferLen := 0, _bufferMax := 0,
      _buffer := [], disk := disk }
  if filemode.data.head? = some 'a' then
    some { b0.open_ with _bufferLen := 0, _bufferMax := bufferMax,
                         _buffer := List.replicate bufferMax 0 }
  else if filemode.data.head? ≠ some 'w' then
    none
  else
    some { b0 with _bufferLen := 0, _bufferMax := bufferMax,
                   _buffer := List.replicate bufferMax 0 }

/-- The accessor `writeBuffer::tell`. -/
def writeBuffer.tell (b : writeBuffer) : Nat := b._filePos

/-- The method `writeBuffer::write(data, length)`.  `none` is a process stopped by one of the two
`assert`s, or by a `memcpy` that would leave the `_bufferMax` chars of `_buffer`. -/
def writeBuffer.write (b : writeBuffer) (data : List Byte) (length : Nat) : Option writeBuffer :=
  let b1 := if b._bufferMax < (b._bufferLen + length) % U64 then b.flush else b
  let b2 : Option writeBuffer :=
    if b1._bufferMax < length then
      if b1._bufferLen = 0 then some (b1.writeToDisk data length) else none
    else if b1._bufferLen + length ≤ b1._buffer.length then
      some { b1 with
        _buffer := b1._buffer.take b1._bufferLen ++ data.take length
                     ++ b1._buffer.drop (b1._bufferLen + length),
        _bufferLen := (b1._bufferLen + length) % U64 }
    else none
  b2.bind fun b3 =>
    if b3._bufferLen ≤ b3._bufferMax then
      some { b3 with _filePos := (b3._filePos + length) % U64 }
    else none

/-- The destructor `writeBuffer::~writeBuffer`: flush, release the buffer, close the file.  The
result is the file that is left in the file system. -/
def writeBuffer.destroy (b : writeBuffer) : Option (List Byte) :=
  b.flush.disk

/-- A sequence of `write` calls, each passing a payload and its length. -/
def writeBuffer.writes : writeBuffer → List (List Byte) → Option writeBuffer
  | b, [] => some b
  | b, d :: ds => (b.write d d.length).bind fun b1 => writeBuffer.writes b1 ds

/-- Sum of the lengths of a sequence of payloads. -/
def totalLength (payloads : List (List Byte)) : Nat :=
  (payloads.map List.length).sum

/-- A whole life of a write-mode buffer: construct, write the payloads, destroy.  The result is
the file left behind, `none` when the process stopped before the destructor finished. -/
def writeBuffer.session (disk : Option (List Byte)) (filemode : String) (bufferMax : Nat)
    (payloads : List (List Byte)) : Option (Option (List Byte)) :=
  ((writeBuffer.create disk filemode bufferMax).bind fun b => b.writes payloads).map
    writeBuffer.destroy

/-! ## The file system seen by the sorter -/

/-- The files by path: the content of each file that exists. -/
abbrev FileSystem := String → Option (List Byte)

/-- Value of `FILENAME_MAX` in `<stdio.h>` (glibc). -/
def FILENAME_MAX : Nat := 4096

/-- Modelled from the spec: `AS_UTL_fileExists(path, directory, readwrite)` is declared in
`AS_UTL_fileIO.H`, which is not among the sources.  The spec has the sentinel check ask whether
"a sentinel file for the slice exists"; the two flags are passed as the caller passes them and
their meaning is not in the sources. -/
def AS_UTL_fileExists (fs : FileSystem) (path : String) (_directory _readwrite : Bool) : Bool :=
  (fs path).isSome

/-- Modelled from the spec: `AS_UTL_createEmptyFile(path)` of `AS_UTL_fileIO.H`, not among the
sources: "create an empty sentinel file". -/
def AS_UTL_createEmptyFile (fs : FileSystem) (path : String) : FileSystem :=
  fun p => if p = path then some [] else fs p

/-- Modelled from the spec: `AS_UTL_unlink(path)` of `AS_UTL_fileIO.H`, not among the sources:
"unconditionally delete the sentinel file; idempotent if already absent". -/
def AS_UTL_unlink (fs : FileSystem) (path : String) : FileSystem :=
  fun p => if p = path then none else fs p

/-- Output of `printf("%04u", n)`: decimal digits, padded with zeros on the left to four. -/
def fmt04u (n : Nat) : List Char :=
  let ds := Nat.toDigits 10 n
  List.replicate (4 - ds.length) '0' ++ ds

/-- The name `N` that `checkSentinel` and `removeSentinel` both build with
`snprintf(N, FILENAME_MAX, "%s/%04u.started", ovlName, sliceNum)`; `snprintf` keeps at most
`FILENAME_MAX - 1` characters. -/
def sentinelName (ovlName : String) (sliceNum : Nat) : String :=
  String.mk ((ovlName.data ++ '/' :: fmt04u sliceNum ++ ".started".data).take (FILENAME_MAX - 1))

/-- The number a string of decimal digits stands for. -/
def ofDecimal (cs : List Char) : Nat :=
  cs.foldl (fun a c => a * 10 + (c.toNat - 48)) 0

/-- A store path of 4095 characters. -/
def longStore : String := String.mk (List.replicate 4095 'a')

/-! ## The sorter: `ovStoreSorter.C` -/

/-- The lines the sorter writes to `stderr` before it stops, or as an `ERROR:` without stopping. -/
inductive Diagnostic
  | usage
  | noSuchSlice
  | inProgress
  | memoryFloor
  | notEnoughMemory
  | countMismatch
deriving DecidableEq, Repr

/-- How a function of the sorter ends: it returns to its caller, or it calls `exit(status)` after
a diagnostic.  Either way it leaves a state behind. -/
inductive Outcome (σ : Type)
  | returned (s : σ)
  | exited (status : Nat) (why : Diagnostic) (s : σ)

/-- What `main` uses of `ovStoreConfig` (`ovStoreConfig.H`, not among the sources): the two
`uint32` accessors. -/
structure ovStoreConfig where
  numSlices  : Nat
  numBuckets : Nat
deriving DecidableEq, Repr

/-- The function `checkSentinel(ovlName, sliceNum, config)`. -/
def checkSentinel (fs : FileSystem) (ovlName : String) (sliceNum : Nat) (config : ovStoreConfig) :
    Outcome FileSystem :=
  if sliceNum = 0 ∨ sliceNum > config.numSlices then
    .exited 1 .noSuchSlice fs
  else
    let N := sentinelName ovlName sliceNum
    if AS_UTL_fileExists fs N true false = true then
      .exited 1 .inProgress fs
    else
      .returned (AS_UTL_createEmptyFile fs N)

/-- The function `removeSentinel(ovlName, sliceNum)`. -/
def removeSentinel (fs : FileSystem) (ovlName : String) (sliceNum : Nat) : FileSystem :=
  AS_UTL_unlink fs (sentinelName ovlName sliceNum)

/-- Constants of headers that are not among the sources: `ovOverlapSortSize` (the size of one
record in the sort, a `uint64` quantity) and `OVSTORE_MEMORY_OVERHEAD`. -/
structure Constants where
  ovOverlapSortSize       : Nat
  OVSTORE_MEMORY_OVERHEAD : Nat
deriving DecidableEq, Repr

/-- The function `checkMemory(ovlName, sliceNum, totOvl, maxMemory)`.  The test is the source's
`ovOverlapSortSize * totOvl > maxMemory`, a product of two `uint64`. -/
def checkMemory (K : Constants) (fs : FileSystem) (ovlName : String) (sliceNum : Nat)
    (totOvl maxMemory : Nat) : Outcome FileSystem :=
  if (K.ovOverlapSortSize * totOvl) % U64 > maxMemory then
    .exited 1 .notEnoughMemory (removeSentinel fs ovlName sliceNum)
  else
    .returned fs

/-- What `main` gets from the reading side of `ovStoreSliceWriter` (`ovStore.H`, not among the
sources): `bucketSizes bb` is what `loadBucketSizes` stores in `bucketSizes[bb]`, `totOvl` is
what it returns, and `bucket bb n` are the records that `loadOverlapsFromBucket(bb, n, ovls,
ovlsLen)` stores at `ovls + ovlsLen`, advancing `ovlsLen` by their number. -/
structure ovStoreSliceWriter (α : Type) where
  bucketSizes : Nat → Nat
  totOvl      : Nat
  bucket      : Nat → Nat → List α

/-- The calls `main` makes to its collaborators and to the sentinel functions, in order. -/
inductive Call (α : Type)
  | checkSentinel
  | sqStore_open
  | loadBucketSizes
  | checkMemory
  | allocateOverlaps (n : Nat)
  | loadOverlapsFromBucket (bb : Nat) (expected : Nat)
  | removeOverlapSlice
  | sort
  | writeOverlaps (ovls : List α)
  | removeSentinel
  | sqStore_close
deriving DecidableEq, Repr

/-- The local variables of `main` when the option loop is over.  `ovlName`, `seqName`, `cfgName`
are `none` for `NULL`; `err` holds the messages for unknown options. -/
structure Options where
  ovlName                 : Option String
  seqName                 : Option String
  cfgName                 : Option String
  sliceNum                : Nat
  maxMemory               : Nat
  deleteIntermediateEarly : Bool
  deleteIntermediateLate  : Bool
  forceRun                : Bool
  err                     : List String
deriving DecidableEq, Repr

/-- The values `main` gives its locals before the option loop. -/
def Options.initial : Options :=
  { ovlName := none, seqName := none, cfgName := none, sliceNum := UINT32_MAX,
    maxMemory := UINT64_MAX, deleteIntermediateEarly := false, deleteIntermediateLate := false,
    forceRun := false, err := [] }

/-- A finished run of `main`: exit status, the diagnostic of a fatal exit, the file system left
behind, the calls made and the `ERROR:` lines printed on the way. -/
structure Run (α : Type) where
  status : Nat
  why    : Option Diagnostic
  fs     : FileSystem
  calls  : List (Call α)
  stderr : List Diagnostic

/-- Stands for `std::sort(first, last)` of the C++ library on the record's `operator<`: insertion
of `x` into a sorted list, before the first element that `x` is less than. -/
def insertSorted {α : Type} (lt : α → α → Bool) (x : α) : List α → List α
  | [] => [x]
  | y :: ys => if lt x y then x :: y :: ys else y :: insertSorted lt x ys

/-- Stands for `std::sort(first, last)` of the C++ library on the record's `operator<`. -/
def sort {α : Type} (lt : α → α → Bool) : List α → List α
  | [] => []
  | x :: xs => insertSorted lt x (sort lt xs)

/-- The loop `for (uint32 bb=0; bb<=config->numBuckets(); bb++) writer->loadOverlapsFromBucket(bb,
bucketSizes[bb], ovls, ovlsLen)`, started at `bb` with the records `ovls` loaded and the calls
`calls` made.  The counter is a `uint32`, so the loop is in one of `2^32` states; the first
argument bounds the number of iterations and `none` is a loop that does not end. -/
def loadLoop {α : Type} (writer : ovStoreSliceWriter α) (numBuckets : Nat) :
    Nat → Nat → List α → List (Call α) → Option (List α × List (Call α))
  | 0, _, _, _ => none
  | fuel + 1, bb, ovls, calls =>
    if bb ≤ numBuckets then
      loadLoop writer numBuckets fuel ((bb + 1) % 2 ^ 32)
        (ovls ++ writer.bucket bb (writer.bucketSizes bb))
        (calls ++ [Call.loadOverlapsFromBucket bb (writer.bucketSizes bb)])
    else
      some (ovls, calls)

/-- The function `main` from the end of the option loop on.  `config` is what
`new ovStoreConfig(cfgName)` loads, `writer` what the slice writer reads, `lt` the record's
`operator<`.  `none` is a run that does not end. -/
def main {α : Type} (K : Constants) (lt : α → α → Bool) (config : ovStoreConfig)
    (writer : ovStoreSliceWriter α) (o : Options) (fs : FileSystem) : Option (Run α) :=
  let err1 := if o.ovlName = none then o.err ++ ["ERROR: No overlap store (-O) supplied."] else o.err
  let err2 := if o.sliceNum = UINT32_MAX then err1 ++ ["ERROR: no slice number (-F) supplied."]
              else err1
  let stderr : List Diagnostic :=
    if o.maxMemory < (K.OVSTORE_MEMORY_OVERHEAD + K.ovOverlapSortSize) % U64 then [.memoryFloor]
    else []
  if err2.length > 0 then
    some ⟨1, some .usage, fs, [], stderr ++ [.usage]⟩
  else
    let ovlName := o.ovlName.getD ""
    match checkSentinel fs ovlName o.sliceNum config with
    | .exited status why fs1 => some ⟨status, some why, fs1, [.checkSentinel], stderr ++ [why]⟩
    | .returned fs1 =>
      let totOvl := writer.totOvl
      match checkMemory K fs1 ovlName o.sliceNum totOvl o.maxMemory with
      | .exited status why fs2 =>
        some ⟨status, some why, fs2,
          [.checkSentinel, .sqStore_open, .loadBucketSizes, .checkMemory], stderr ++ [why]⟩
      | .returned fs2 =>
        match loadLoop writer config.numBuckets (2 ^ 32 + 1) 0 []
            [.checkSentinel, .sqStore_open, .loadBucketSizes, .checkMemory,
             .allocateOverlaps totOvl] with
        | none => none
        | some (ovls, calls) =>
          let ovlsLen := ovls.length
          if ovlsLen ≠ totOvl then
            some ⟨1, some .countMismatch, fs2, calls, stderr ++ [.countMismatch]⟩
          else
            let calls1 := if o.deleteIntermediateEarly then calls ++ [.removeOverlapSlice]
                          else calls
            let sorted := sort lt ovls
            let calls2 := calls1 ++ [.sort, .writeOverlaps sorted]
            let fs3 := removeSentinel fs2 ovlName o.sliceNum
            let calls3 := calls2 ++ [.removeSentinel, .sqStore_close]
            let calls4 := if o.deleteIntermediateLate then calls3 ++ [.removeOverlapSlice]
                          else calls3
            some ⟨0, none, fs3, calls4, stderr⟩

/-- The records `main` has loaded when the loop over the buckets `0..numBuckets` is over: the
contributions of the buckets, in bucket order. -/
def loaded {α : Type} (writer : ovStoreSliceWriter α) (numBuckets : Nat) : List α :=
  ((List.range (numBuckets + 1)).map fun bb => writer.bucket bb (writer.bucketSizes bb)).flatten

/-- The calls of the loop over the buckets `0..numBuckets`. -/
def loadCalls {α : Type} (writer : ovStoreSliceWriter α) (numBuckets : Nat) : List (Call α) :=
  (List.range (numBuckets + 1)).map fun bb =>
    Call.loadOverlapsFromBucket bb (writer.bucketSizes bb)

/-- The exit status of a function that called `exit`, `none` when it returned. -/
def Outcome.exitStatus {σ : Type} : Outcome σ → Option Nat
  | .returned _ => none
  | .exited status _ _ => some status

/-- The state a function of the sorter leaves behind, whether it returned or called `exit`. -/
def Outcome.state {σ : Type} : Outcome σ → σ
  | .returned s => s
  | .exited _ _ s => s

/-- The `ERROR:` line `main` prints, without stopping, for a memory cap below the floor. -/
def floorLines (K : Constants) (o : Options) : List Diagnostic :=
  if o.maxMemory < (K.OVSTORE_MEMORY_OVERHEAD + K.ovOverlapSortSize) % U64 then [.memoryFloor]
  else []

/-- The calls of `main` up to the end of the loop over the buckets. -/
def callsToLoad {α : Type} (config : ovStoreConfig) (writer : ovStoreSliceWriter α) :
    List (Call α) :=
  [.checkSentinel, .sqStore_open, .loadBucketSizes, .checkMemory,
    .allocateOverlaps writer.totOvl] ++ loadCalls writer config.numBuckets

/-- The calls of a run of `main` that reaches `return(0)`. -/
def callsOfSuccess {α : Type} (lt : α → α → Bool) (config : ovStoreConfig)
    (writer : ovStoreSliceWriter α) (o : Options) : List (Call α) :=
  callsToLoad config writer
    ++ (if o.deleteIntermediateEarly then [.removeOverlapSlice] else [])
    ++ [.sort, .writeOverlaps (sort lt (loaded writer config.numBuckets))]
    ++ [.removeSentinel, .sqStore_close]
    ++ (if o.deleteIntermediateLate then [.removeOverlapSlice] else [])

/-- Whether a call belongs to the part of `main` that ends with the loop over the buckets. -/
def Call.preparing {α : Type} : Call α → Bool
  | .checkSentinel => true
  | .sqStore_open => true
  | .loadBucketSizes => true
  | .checkMemory => true
  | .allocateOverlaps _ => true
  | .loadOverlapsFromBucket _ _ => true
  | _ => false

/-- The argument of a `writeOverlaps` call. -/
def Call.written {α : Type} : Call α → Option (List α)
  | .writeOverlaps ovls => some ovls
  | _ => none

/-- The sequences handed to `writeOverlaps` during a run, in call order. -/
def Run.written {α : Type} (r : Run α) : List (List α) :=
  r.calls.filterMap Call.written

/-- A sequence in which no record is less than an earlier one. -/
def SortedBy {α : Type} (lt : α → α → Bool) (l : List α) : Prop :=
  l.Pairwise fun a b => lt b a = false

/-! ## Concrete inputs

The scenario of the specification: slice 3 of a store with 4 slices and 2 buckets, records of 24
bytes, an overhead of a quarter of a gigabyte. -/

/-- A file system without files. -/
def emptyFS : FileSystem := fun _ => none

/-- A file system whose only file is the sentinel of slice 3 of `store`. -/
def heldFS : FileSystem := fun p => if p = "store/0003.started" then some [] else none

/-- Record size 24, overhead 256 MiB. -/
def exampleConstants : Constants := ⟨24, 268435456⟩

/-- Four slices, bucket indices `0..2`. -/
def exampleConfig : ovStoreConfig := ⟨4, 2⟩

/-- Records are numbers, ordered as numbers. -/
def natLt (a b : Nat) : Bool := decide (a < b)

/-- Buckets 1 and 2 hold 5 and 7 records for the slice, bucket 0 none. -/
def exampleWriter : ovStoreSliceWriter Nat :=
  { bucketSizes := fun bb => if bb = 1 then 5 else if bb = 2 then 7 else 0
    totOvl := 12
    bucket := fun bb _ =>
      if bb = 1 then [50, 10, 40, 20, 30] else if bb = 2 then [7, 6, 5, 4, 3, 2, 1] else [] }

/-- The same buckets, the second one delivering one record less than announced. -/
def shortWriter : ovStoreSliceWriter Nat :=
  { exampleWriter with
    bucket := fun bb _ =>
      if bb = 1 then [50, 10, 40, 20, 30] else if bb = 2 then [7, 6, 5, 4, 3, 2] else [] }

/-- A slice without overlaps. -/
def emptyWriter : ovStoreSliceWriter Nat :=
  { bucketSizes := fun _ => 0, totOvl := 0, bucket := fun _ _ => [] }

/-- The options `-O store -S seq -C cfg -s 3 -deleteearly -deletelate`. -/
def bothDeletes : Options :=
  { Options.initial with
    ovlName := some "store", seqName := some "seq", cfgName := some "cfg", sliceNum := 3,
    deleteIntermediateEarly := true, deleteIntermediateLate := true }

/-- The options `-O store -S seq -C cfg -s 3`. -/
def exampleOptions : Options :=
  { Options.initial with
    ovlName := some "store", seqName := some "seq", cfgName := some "cfg", sliceNum := 3 }

/-! ## `writeBuffer`: the stops of `write`, sequences of calls, reachable states -/

/-- The three places where `write` stops the process: the `assert(_bufferLen == 0)` of the
direct branch, a `memcpy` that would leave the buffer, and the final
`assert(_bufferLen <= _bufferMax)`. -/
inductive WriteFault
  | bufferNotEmpty
  | copyOverrun
  | lengthAboveMax
deriving DecidableEq, Repr

/-- The method `writeBuffer::write(data, length)` once more, naming the place where it stops. -/
def writeBuffer.writeOrFault (b : writeBuffer) (data : List Byte) (length : Nat) :
    Except WriteFault writeBuffer :=
  let b1 := if b._bufferMax < (b._bufferLen + length) % U64 then b.flush else b
  let b2 : Except WriteFault writeBuffer :=
    if b1._bufferMax < length then
      if b1._bufferLen = 0 then .ok (b1.writeToDisk data length) else .error .bufferNotEmpty
    else if b1._bufferLen + length ≤ b1._buffer.length then
      .ok { b1 with
        _buffer := b1._buffer.take b1._bufferLen ++ data.take length
                     ++ b1._buffer.drop (b1._bufferLen + length),
        _bufferLen := (b1._bufferLen + length) % U64 }
    else .error .copyOverrun
  match b2 with
  | .error e => .error e
  | .ok b3 =>
    if b3._bufferLen ≤ b3._bufferMax then
      .ok { b3 with _filePos := (b3._filePos + length) % U64 }
    else .error .lengthAboveMax

/-- The stop of a `write`, `none` when it returns. -/
def writeBuffer.writeFault (b : writeBuffer) (data : List Byte) (length : Nat) :
    Option WriteFault :=
  match b.writeOrFault data length with
  | .ok _ => none
  | .error e => some e

/-- The state after the copying branch of `write` and the advance of `_filePos`, for a payload
that fits behind the buffered bytes. -/
def writeBuffer.copied (b : writeBuffer) (d : List Byte) : writeBuffer :=
  { b with
    _buffer := b._buffer.take b._bufferLen ++ d.take d.length
                 ++ b._buffer.drop (b._bufferLen + d.length),
    _bufferLen := b._bufferLen + d.length,
    _filePos := (b._filePos + d.length) % U64 }

/-- The state after the direct branch of `write` and the advance of `_filePos`. -/
def writeBuffer.directed (b : writeBuffer) (d : List Byte) : writeBuffer :=
  { b.writeToDisk d d.length with
    _filePos := ((b.writeToDisk d d.length)._filePos + d.length) % U64 }

/-- A call on a `writeBuffer`: `write(data, length)` with the `length` bytes of `data`, or
`flush()`. -/
inductive Op
  | write (data : List Byte)
  | flush
deriving DecidableEq, Repr

/-- One call. -/
def writeBuffer.step (b : writeBuffer) : Op → Option writeBuffer
  | .write d => b.write d d.length
  | .flush => some b.flush

/-- A sequence of calls; `none` when one of them stops the process. -/
def writeBuffer.run : writeBuffer → List Op → Option writeBuffer
  | b, [] => some b
  | b, op :: ops => (b.step op).bind fun b1 => writeBuffer.run b1 ops

/-- The bytes a call passes to `write`. -/
def Op.bytes : Op → List Byte
  | .write d => d
  | .flush => []

/-- All bytes passed to `write` by a sequence of calls, in call order. -/
def opsBytes (ops : List Op) : List Byte :=
  (ops.map Op.bytes).flatten

/-- The payload lengths of a sequence of calls are `uint64` values. -/
def opsSized (ops : List Op) : Prop :=
  ∀ op ∈ ops, op.bytes.length < U64

/-- The states a `writeBuffer` can be in: constructed in either mode with a `uint64` capacity,
then any sequence of `write` and `flush` calls that all returned. -/
def Reachable (b : writeBuffer) : Prop :=
  ∃ (disk0 : Option (List Byte)) (mode : String) (C : Nat) (ops : List Op) (b0 : writeBuffer),
    C < U64 ∧ opsSized ops ∧ writeBuffer.create disk0 mode C = some b0 ∧ b0.run ops = some b

/-- The buffered bytes: the first `_bufferLen` chars of `_buffer`. -/
def writeBuffer.buffered (b : writeBuffer) : List Byte :=
  b._buffer.take b._bufferLen

/-- The file as far as this buffer has opened it: its bytes once the handle is open, nothing
before. -/
def writeBuffer.onDisk (b : writeBuffer) : List Byte :=
  if b._file then b.disk.getD [] else []

/-- The bytes in the file at the moment the buffer opens it: those of the existing file when
appending, none when writing. -/
def initialBytes (disk0 : Option (List Byte)) (mode : String) : List Byte :=
  if mode.data.head? = some 'a' then disk0.getD [] else []

/-- What holds of a buffer of capacity `C`, created in mode `mode` over the file `disk0`, after
the bytes `sofar` were passed to `write`. -/
structure BInv (disk0 : Option (List Byte)) (mode : String) (C : Nat) (b : writeBuffer)
    (sofar : List Byte) : Prop where
  max_eq : b._bufferMax = C
  buf_len : b._buffer.length = C
  len_le : b._bufferLen ≤ C
  mode_eq : b._filemode = mode
  pos : b._filePos = ((initialBytes disk0 mode).length + sofar.length) % U64
  closed : b._file = false →
    ¬ mode.data.head? = some 'a' ∧ b.disk = disk0 ∧ b._buffer.take b._bufferLen = sofar
  opened : b._file = true →
    ∃ w, b.disk = some (initialBytes disk0 mode ++ w) ∧ w ++ b._buffer.take b._bufferLen = sofar

/-- A `write` of `length` bytes in state `b` moves a non-zero number of bytes to disk: it
flushes a non-empty buffer, or it takes the direct branch. -/
def writeBuffer.transfers (b : writeBuffer) (length : Nat) : Prop :=
  (b._bufferMax < (b._bufferLen + length) % U64 ∧ b._bufferLen ≠ 0) ∨ b._bufferMax < length

/-- A sequence of `write` calls from state `b` none of which moves bytes to disk. -/
def quietWrites : writeBuffer → List (List Byte) → Prop
  | _, [] => True
  | b, d :: ds =>
    ¬ b.transfers d.length ∧ ∀ b1, b.write d d.length = some b1 → quietWrites b1 ds

/-- A write-mode buffer of capacity 4 with one byte buffered, the file not yet opened. -/
def oneBuffered : writeBuffer :=
  { _filemode := "w", _file := false, _filePos := 1, _bufferLen := 1, _bufferMax := 4,
    _buffer := [1, 0, 0, 0], disk := none }

/-- A payload of `2^64 - 1` bytes. -/
def hugePayload : List Byte := List.replicate (2 ^ 64 - 1) 0

/-- An append-mode buffer of capacity 4 over a file of two bytes, after six bytes were
flushed and two more buffered. -/
def appended : writeBuffer :=
  { _filemode := "a", _file := true, _filePos := 10, _bufferLen := 2, _bufferMax := 4,
    _buffer := [9, 5, 8, 0], disk := some [1, 2, 3, 4, 5, 6, 7, 8] }

/-! ## The invariant of a write-mode `writeBuffer` -/

/-- What holds of a write-mode buffer of capacity `C`, created over the file `disk0`, after the
bytes `sofar` were passed to `write`. -/
structure WInv (disk0 : Option (List Byte)) (C : Nat) (b : writeBuffer) (sofar : List Byte) :
    Prop where
  max_eq : b._bufferMax = C
  buf_len : b._buffer.length = C
  len_le : b._bufferLen ≤ C
  mode : ¬ b._filemode.data.head? = some 'a'
  pos : b._filePos = sofar.length % U64
  closed : b._file = false → b.disk = disk0 ∧ b._buffer.take b._bufferLen = sofar
  opened : b._file = true →
    ∃ w, w ≠ [] ∧ b.disk = some w ∧ w ++ b._buffer.take b._bufferLen = sofar

/-! ## Proofs: `writeBuffer` in write mode -/

theorem WInv.create (disk0 : Option (List Byte)) (C : Nat) :
    ∃ b, writeBuffer.create disk0 "w" C = some b ∧ WInv disk0 C b [] := by
  refine ⟨_, rfl, ?_⟩
  constructor <;> simp [U64]

theorem WInv.flush {disk0 : Option (List Byte)} {C : Nat} {b : writeBuffer} {sofar : List Byte}
    (h : WInv disk0 C b sofar) : WInv disk0 C b.flush sofar ∧ b.flush._bufferLen = 0 := by
  obtain ⟨mode, file, pos, len, mx, buf, disk⟩ := b
  obtain ⟨h1, h2, h3, h4, h5, h6, h7⟩ := h
  simp only at h1 h2 h3 h4 h5 h6 h7
  by_cases hl : len = 0
  · subst hl
    simp only [writeBuffer.flush, writeBuffer.writeToDisk, if_true, and_true]
    exact ⟨h1, h2, h3, h4, h5, h6, h7⟩
  · have hne : buf.take len ≠ [] := by
      intro hnil
      have := congrArg List.length hnil
      rw [List.length_take, List.length_nil] at this
      omega
    cases file with
    | true =>
      obtain ⟨w, hw, hd, hs⟩ := h7 rfl
      subst hd
      simp only [writeBuffer.flush, writeBuffer.writeToDisk, writeBuffer.open_, if_neg hl, if_true,
        and_true]
      refine ⟨h1, h2, Nat.zero_le _, h4, h5, by simp, fun _ => ⟨w ++ buf.take len, ?_, ?_, ?_⟩⟩
      · simp [hw]
      · simp
      · simpa using hs
    | false =>
      obtain ⟨hd, hs⟩ := h6 rfl
      simp only [writeBuffer.flush, writeBuffer.writeToDisk, writeBuffer.open_, if_neg hl, if_neg h4,
        and_true]
      refine ⟨h1, h2, Nat.zero_le _, h4, ?_, by simp, fun _ => ⟨buf.take len, hne, ?_, ?_⟩⟩
      · simp [h5, U64]
      · simp
      · simpa using hs

theorem WInv.direct {disk0 : Option (List Byte)} {C : Nat} {b : writeBuffer} {sofar : List Byte}
    (h : WInv disk0 C b sofar) (d : List Byte) (hz : b._bufferLen = 0) (hd : d.length ≠ 0) :
    WInv disk0 C { b.writeToDisk d d.length with
      _filePos := ((b.writeToDisk d d.length)._filePos + d.length) % U64 } (sofar ++ d) := by
  obtain ⟨mode, file, pos, len, mx, buf, disk⟩ := b
  obtain ⟨h1, h2, h3, h4, h5, h6, h7⟩ := h
  simp only at h1 h2 h3 h4 h5 h6 h7 hz
  subst hz
  have hdne : d ≠ [] := fun hnil => hd (by simp [hnil])
  cases file with
  | true =>
    obtain ⟨w, hw, hdisk, hs⟩ := h7 rfl
    subst hdisk
    simp only [writeBuffer.writeToDisk, writeBuffer.open_, if_neg hd, if_true]
    refine ⟨h1, h2, h3, h4, ?_, by simp, fun _ => ⟨w ++ d, ?_, ?_, ?_⟩⟩
    · simp [h5, Nat.add_mod]
    · simp [hw]
    · simp
    · simp at hs
      simp [hs]
  | false =>
    obtain ⟨hdisk, hs⟩ := h6 rfl
    simp only [writeBuffer.writeToDisk, writeBuffer.open_, if_neg hd, if_neg h4]
    refine ⟨h1, h2, h3, h4, ?_, by simp, fun _ => ⟨d, hdne, ?_, ?_⟩⟩
    · simp [h5, Nat.add_mod]
    · simp
    · simp at hs
      simp [hs]

theorem take_overwrite (buf d : List Byte) (len : Nat) (hlen : len ≤ buf.length) :
    (buf.take len ++ d ++ buf.drop (len + d.length)).take (len + d.length) = buf.take len ++ d := by
  have h1 : (buf.take len ++ d).length = len + d.length := by
    simp [List.length_take, Nat.min_eq_left hlen]
  rw [← h1, List.take_left]

theorem WInv.copy {disk0 : Option (List Byte)} {C : Nat} {b : writeBuffer} {sofar : List Byte}
    (h : WInv disk0 C b sofar) (d : List Byte) (hfit : b._bufferLen + d.length ≤ C) :
    WInv disk0 C { b with
      _buffer := b._buffer.take b._bufferLen ++ d.take d.length
                   ++ b._buffer.drop (b._bufferLen + d.length),
      _bufferLen := b._bufferLen + d.length,
      _filePos := (b._filePos + d.length) % U64 } (sofar ++ d) := by
  obtain ⟨mode, file, pos, len, mx, buf, disk⟩ := b
  obtain ⟨h1, h2, h3, h4, h5, h6, h7⟩ := h
  simp only at h1 h2 h3 h4 h5 h6 h7 hfit
  have hlen : len ≤ buf.length := by omega
  have htk := take_overwrite buf d len hlen
  refine ⟨h1, ?_, hfit, h4, ?_, ?_, ?_⟩
  · simp [List.length_take, Nat.min_eq_left hlen]
    omega
  · simp [h5, Nat.add_mod]
  · intro hf
    obtain ⟨hdisk, hs⟩ := h6 hf
    refine ⟨hdisk, ?_⟩
    simp only [List.take_length]
    rw [htk, hs]
  · intro hf
    obtain ⟨w, hw, hdisk, hs⟩ := h7 hf
    refine ⟨w, hw, hdisk, ?_⟩
    simp only [List.take_length]
    rw [htk, ← hs, List.append_assoc]

theorem WInv.write {disk0 : Option (List Byte)} {C : Nat} {b : writeBuffer} {sofar : List Byte}
    (h : WInv disk0 C b sofar) (d : List Byte) (hd : C + d.length < U64) :
    ∃ b1, b.write d d.length = some b1 ∧ WInv disk0 C b1 (sofar ++ d) := by
  have hmax := h.max_eq
  have hsum : (b._bufferLen + d.length) % U64 = b._bufferLen + d.length :=
    Nat.mod_eq_of_lt (by have := h.len_le; omega)
  unfold writeBuffer.write
  rw [hsum]
  by_cases hbig : b._bufferMax < b._bufferLen + d.length
  · -- the buffer is flushed first
    obtain ⟨hf, hz⟩ := h.flush
    rw [if_pos hbig]
    by_cases hdir : b.flush._bufferMax < d.length
    · have hd0 : d.length ≠ 0 := by omega
      have := hf.direct d hz hd0
      refine ⟨_, ?_, this⟩
      simp [hdir, hz, writeBuffer.writeToDisk, hd0, writeBuffer.open_]
      split <;> simp [hz]
    · have hfit : b.flush._bufferLen + d.length ≤ C := by
        have := hf.max_eq
        omega
      have := hf.copy d hfit
      refine ⟨_, ?_, this⟩
      have h2 := hf.buf_len
      have h3 := hf.max_eq
      have hm : (b.flush._bufferLen + d.length) % U64 = b.flush._bufferLen + d.length :=
        Nat.mod_eq_of_lt (by omega)
      have hdir1 : ¬ C < d.length := by omega
      simp only [if_neg hdir, hm, h2, if_pos hfit, Option.some_bind, h3]
      simp [hfit, hdir1]
  · rw [if_neg hbig]
    have hdir : ¬ b._bufferMax < d.length := by omega
    have hfit : b._bufferLen + d.length ≤ C := by omega
    have := h.copy d hfit
    refine ⟨_, ?_, this⟩
    have h2 := h.buf_len
    have hdir1 : ¬ C < d.length := by omega
    simp only [if_neg hdir, hsum, h2, if_pos hfit, Option.some_bind, hmax]
    simp [hfit, hdir1]

theorem WInv.writes {disk0 : Option (List Byte)} {C : Nat} :
    ∀ (payloads : List (List Byte)) (b : writeBuffer) (sofar : List Byte),
      WInv disk0 C b sofar → (∀ d ∈ payloads, C + d.length < U64) →
      ∃ b1, b.writes payloads = some b1 ∧ WInv disk0 C b1 (sofar ++ payloads.flatten)
  | [], b, sofar, h, _ => ⟨b, rfl, by simpa using h⟩
  | d :: ds, b, sofar, h, hfit => by
    obtain ⟨b1, hw, h1⟩ := h.write d (hfit d (List.mem_cons_self _ _))
    obtain ⟨b2, hws, h2⟩ :=
      WInv.writes ds b1 (sofar ++ d) h1 (fun e he => hfit e (List.mem_cons_of_mem _ he))
    refine ⟨b2, ?_, ?_⟩
    · simp [writeBuffer.writes, hw, hws]
    · simpa [List.append_assoc] using h2

theorem WInv.destroy {disk0 : Option (List Byte)} {C : Nat} {b : writeBuffer} {sofar : List Byte}
    (h : WInv disk0 C b sofar) : b.destroy = if sofar = [] then disk0 else some sofar := by
  obtain ⟨hf, hz⟩ := h.flush
  unfold writeBuffer.destroy
  cases hfile : b.flush._file with
  | false =>
    obtain ⟨hdisk, hs⟩ := hf.closed hfile
    rw [hz] at hs
    simp at hs
    simp [← hs, hdisk]
  | true =>
    obtain ⟨w, hw, hdisk, hs⟩ := hf.opened hfile
    rw [hz] at hs
    simp at hs
    subst hs
    simp [hw, hdisk]

theorem totalLength_join (payloads : List (List Byte)) :
    payloads.flatten.length = totalLength payloads := by
  simp [totalLength, List.length_flatten]

theorem totalLength_take_le (payloads : List (List Byte)) (k : Nat) :
    totalLength (payloads.take k) ≤ totalLength payloads := by
  have h : totalLength (payloads.take k ++ payloads.drop k) = totalLength payloads := by
    rw [List.take_append_drop]
  simp only [totalLength, List.map_append, List.sum_append] at h
  simp only [totalLength]
  omega

theorem session_eq (disk0 : Option (List Byte)) (C : Nat) (payloads : List (List Byte))
    (hfit : ∀ d ∈ payloads, C + d.length < U64) :
    ∃ b0 b, writeBuffer.create disk0 "w" C = some b0 ∧ b0.writes payloads = some b ∧
      WInv disk0 C b payloads.flatten ∧
      writeBuffer.session disk0 "w" C payloads = some b.destroy := by
  obtain ⟨b0, hc, h0⟩ := WInv.create disk0 C
  obtain ⟨b, hw, h1⟩ := WInv.writes payloads b0 [] h0 hfit
  refine ⟨b0, b, hc, hw, by simpa using h1, ?_⟩
  simp [writeBuffer.session, hc, hw]

/-- C1 (as amended).  A write-mode buffer of any capacity `C`, given any sequence of payloads
(empty ones and ones longer than `C` included, each fitting with the buffer in the 64-bit address
space), runs to the end of its destructor, and then: if at least one byte was written the file
holds exactly the concatenation of the payloads in call order; if no byte was written the file
was never opened and is whatever it was before (absent, or with its old content). -/
theorem writeBuffer_roundtrip (disk0 : Option (List Byte)) (C : Nat)
    (payloads : List (List Byte)) (hfit : ∀ d ∈ payloads, C + d.length < U64) :
    writeBuffer.session disk0 "w" C payloads =
      some (if payloads.flatten = [] then disk0 else some payloads.flatten) := by
  obtain ⟨b0, b, _, _, h, hs⟩ := session_eq disk0 C payloads hfit
  rw [hs, h.destroy]

/-- Witness for C1: capacity 4, a short payload, an empty one, one longer than the capacity. -/
theorem writeBuffer_roundtrip_witness :
    writeBuffer.session none "w" 4 [[1, 2, 3], [], [4, 5, 6, 7, 8, 9], [10]] =
      some (if [[1, 2, 3], [], [4, 5, 6, 7, 8, 9], [10]].flatten = ([] : List Byte) then none
            else some [[1, 2, 3], [], [4, 5, 6, 7, 8, 9], [10]].flatten) :=
  writeBuffer_roundtrip none 4 [[1, 2, 3], [], [4, 5, 6, 7, 8, 9], [10]] (by decide)

/-- Counterexample to C1 as stated: over a file that holds the byte `7`, one zero-length write
followed by the destructor leaves the file holding `7`, not the (empty) concatenation of the
payloads. -/
theorem writeBuffer_roundtrip_counterexample :
    writeBuffer.session (some [7]) "w" 4 [[]] = some (some [7]) ∧
      writeBuffer.session (some [7]) "w" 4 [[]] ≠ some (some ([[]] : List (List Byte)).flatten) := by
  decide

/-- C2.  On a write-mode buffer of any capacity, after each call of a sequence of `write` calls
(each payload fitting with the buffer in the 64-bit address space, the total below `2^64`),
`tell()` is the sum of the lengths of the calls made so far, whether the bytes were buffered,
flushed or written directly; and each call, made after any part `done` of the sequence, returns
and advances `tell()` by exactly its length. -/
theorem tell_after_each_write (disk0 : Option (List Byte)) (C : Nat)
    (payloads : List (List Byte)) (hfit : ∀ d ∈ payloads, C + d.length < U64)
    (htot : totalLength payloads < U64) :
    ∃ b0, writeBuffer.create disk0 "w" C = some b0 ∧
      (∀ k, k ≤ payloads.length →
        ∃ b, b0.writes (payloads.take k) = some b ∧ b.tell = totalLength (payloads.take k)) ∧
      (∀ (done rest : List (List Byte)) (d : List Byte) (b : writeBuffer),
        payloads = done ++ d :: rest → b0.writes done = some b →
        ∃ b1, b.write d d.length = some b1 ∧ b1.tell = b.tell + d.length) := by
  obtain ⟨b0, hc, h0⟩ := WInv.create disk0 C
  refine ⟨b0, hc, fun k _ => ?_, fun done rest d b hsplit hdone => ?_⟩
  · obtain ⟨b, hw, h1⟩ := WInv.writes (payloads.take k) b0 [] h0
      (fun d hd => hfit d (List.mem_of_mem_take hd))
    refine ⟨b, hw, ?_⟩
    have hpos := h1.pos
    simp only [List.nil_append, totalLength_join] at hpos
    have hle := totalLength_take_le payloads k
    rw [writeBuffer.tell, hpos]
    exact Nat.mod_eq_of_lt (by omega)
  · subst hsplit
    obtain ⟨b2, hw, h1⟩ := WInv.writes done b0 [] h0
      (fun e he => hfit e (List.mem_append_left _ he))
    rw [hdone] at hw
    obtain rfl := Option.some.inj hw
    obtain ⟨b1, hw1, h2⟩ := h1.write d (hfit d (by simp))
    refine ⟨b1, hw1, ?_⟩
    have hpos := h1.pos
    have hpos1 := h2.pos
    simp only [List.nil_append, totalLength_join, List.length_append] at hpos hpos1
    have hsum : totalLength done + d.length ≤ totalLength (done ++ d :: rest) := by
      simp only [totalLength, List.map_append, List.sum_append, List.map_cons, List.sum_cons]
      omega
    rw [writeBuffer.tell, writeBuffer.tell, hpos, hpos1, Nat.mod_eq_of_lt (by omega),
      Nat.mod_eq_of_lt (by omega)]

/-- Witness for C2: capacity 4, payloads of lengths 3, 0, 6 and 1. -/
theorem tell_after_each_write_witness :
    ∃ b0, writeBuffer.create none "w" 4 = some b0 ∧
      (∀ k, k ≤ [[1, 2, 3], [], [4, 5, 6, 7, 8, 9], [10]].length →
        ∃ b, b0.writes (([[1, 2, 3], [], [4, 5, 6, 7, 8, 9], [10]] : List (List Byte)).take k)
            = some b ∧
          b.tell = totalLength (([[1, 2, 3], [], [4, 5, 6, 7, 8, 9], [10]] :
            List (List Byte)).take k)) ∧
      (∀ (done rest : List (List Byte)) (d : List Byte) (b : writeBuffer),
        [[1, 2, 3], [], [4, 5, 6, 7, 8, 9], [10]] = done ++ d :: rest →
        b0.writes done = some b →
        ∃ b1, b.write d d.length = some b1 ∧ b1.tell = b.tell + d.length) :=
  tell_after_each_write none 4 [[1, 2, 3], [], [4, 5, 6, 7, 8, 9], [10]] (by decide) (by decide)

/-! ## Proofs: the sort -/

theorem insertSorted_perm {α : Type} (lt : α → α → Bool) (x : α) :
    ∀ l : List α, (insertSorted lt x l).Perm (x :: l)
  | [] => List.Perm.refl _
  | y :: ys => by
    unfold insertSorted
    split
    · exact List.Perm.refl _
    · exact ((insertSorted_perm lt x ys).cons y).trans (List.Perm.swap x y ys)

theorem sort_perm {α : Type} (lt : α → α → Bool) : ∀ l : List α, (sort lt l).Perm l
  | [] => List.Perm.refl _
  | x :: xs => by
    unfold sort
    exact (insertSorted_perm lt x _).trans ((sort_perm lt xs).cons x)

theorem insertSorted_sorted {α : Type} (lt : α → α → Bool)
    (hasym : ∀ a b, lt a b = true → lt b a = false)
    (htrans : ∀ a b c, lt a b = true → lt b c = true → lt a c = true) (x : α) :
    ∀ l : List α, SortedBy lt l → SortedBy lt (insertSorted lt x l)
  | [], _ => by simp [insertSorted, SortedBy]
  | y :: ys, h => by
    unfold SortedBy at h
    rw [List.pairwise_cons] at h
    obtain ⟨hy, hys⟩ := h
    unfold insertSorted
    by_cases hxy : lt x y = true
    · rw [if_pos hxy]
      refine List.Pairwise.cons ?_ (List.Pairwise.cons hy hys)
      intro z hz
      rcases List.mem_cons.mp hz with rfl | hz
      · exact hasym _ _ hxy
      · cases hzx : lt z x with
        | false => rfl
        | true =>
          have := htrans z x y hzx hxy
          rw [hy z hz] at this
          exact absurd this (by simp)
    · rw [if_neg hxy]
      refine List.Pairwise.cons ?_ (insertSorted_sorted lt hasym htrans x ys hys)
      intro z hz
      rcases List.mem_cons.mp ((insertSorted_perm lt x ys).mem_iff.mp hz) with rfl | hz
      · simpa using hxy
      · exact hy z hz

theorem sort_sorted {α : Type} (lt : α → α → Bool)
    (hasym : ∀ a b, lt a b = true → lt b a = false)
    (htrans : ∀ a b c, lt a b = true → lt b c = true → lt a c = true) :
    ∀ l : List α, SortedBy lt (sort lt l)
  | [] => by simp [sort, SortedBy]
  | x :: xs => by
    unfold sort
    exact insertSorted_sorted lt hasym htrans x _ (sort_sorted lt hasym htrans xs)

/-! ## Proofs: the loop over the buckets -/

theorem loadLoop_some {α : Type} (writer : ovStoreSliceWriter α) (numBuckets : Nat)
    (hnb : numBuckets + 1 < 2 ^ 32) :
    ∀ (n fuel bb : Nat) (ovls : List α) (calls : List (Call α)),
      bb + n = numBuckets + 1 → n < fuel →
      loadLoop writer numBuckets fuel bb ovls calls =
        some (ovls ++ ((List.range' bb n).map fun i =>
                writer.bucket i (writer.bucketSizes i)).flatten,
              calls ++ (List.range' bb n).map fun i =>
                Call.loadOverlapsFromBucket i (writer.bucketSizes i)) := by
  intro n
  induction n with
  | zero =>
    intro fuel bb ovls calls hbb hfuel
    obtain ⟨f, rfl⟩ : ∃ f, fuel = f + 1 := ⟨fuel - 1, by omega⟩
    have : ¬ bb ≤ numBuckets := by omega
    simp [loadLoop, this]
  | succ n ih =>
    intro fuel bb ovls calls hbb hfuel
    obtain ⟨f, rfl⟩ : ∃ f, fuel = f + 1 := ⟨fuel - 1, by omega⟩
    have hle : bb ≤ numBuckets := by omega
    have hmod : (bb + 1) % 2 ^ 32 = bb + 1 := Nat.mod_eq_of_lt (by omega)
    rw [loadLoop, if_pos hle, hmod, ih f (bb + 1) _ _ (by omega) (by omega)]
    simp [List.range'_succ, List.append_assoc]

theorem loadLoop_none {α : Type} (writer : ovStoreSliceWriter α) (numBuckets : Nat)
    (hnb : 2 ^ 32 ≤ numBuckets + 1) :
    ∀ (fuel bb : Nat) (ovls : List α) (calls : List (Call α)), bb < 2 ^ 32 →
      loadLoop writer numBuckets fuel bb ovls calls = none := by
  intro fuel
  induction fuel with
  | zero => intros; rfl
  | succ f ih =>
    intro bb ovls calls hbb
    have hle : bb ≤ numBuckets := by omega
    rw [loadLoop, if_pos hle]
    exact ih _ _ _ (Nat.mod_lt _ (by norm_num))

theorem loadLoop_main {α : Type} (writer : ovStoreSliceWriter α) (numBuckets : Nat)
    (hnb : numBuckets < UINT32_MAX) (calls : List (Call α)) :
    loadLoop writer numBuckets (2 ^ 32 + 1) 0 [] calls =
      some (loaded writer numBuckets, calls ++ loadCalls writer numBuckets) := by
  have h1 : numBuckets + 1 < 2 ^ 32 := by
    unfold UINT32_MAX at hnb
    omega
  rw [loadLoop_some writer numBuckets h1 (numBuckets + 1) _ 0 [] calls (by omega) (by omega)]
  simp [loaded, loadCalls, List.range_eq_range']

theorem loadLoop_diverges {α : Type} (writer : ovStoreSliceWriter α) (numBuckets : Nat)
    (hnb : UINT32_MAX ≤ numBuckets) (calls : List (Call α)) :
    loadLoop writer numBuckets (2 ^ 32 + 1) 0 [] calls = none := by
  have h1 : 2 ^ 32 ≤ numBuckets + 1 := by
    unfold UINT32_MAX at hnb
    omega
  exact loadLoop_none writer numBuckets h1 _ 0 [] calls (by norm_num)

/-! ## Proofs: the sorter -/

/-- The run of `main` as a list of cases, in the order in which the source decides them. -/
theorem main_eq {α : Type} (K : Constants) (lt : α → α → Bool) (config : ovStoreConfig)
    (writer : ovStoreSliceWriter α) (o : Options) (fs : FileSystem) :
    main K lt config writer o fs =
      let N := sentinelName (o.ovlName.getD "") o.sliceNum
      if o.ovlName = none ∨ o.sliceNum = UINT32_MAX ∨ o.err ≠ [] then
        some ⟨1, some .usage, fs, [], floorLines K o ++ [.usage]⟩
      else if o.sliceNum = 0 ∨ o.sliceNum > config.numSlices then
        some ⟨1, some .noSuchSlice, fs, [.checkSentinel], floorLines K o ++ [.noSuchSlice]⟩
      else if (fs N).isSome = true then
        some ⟨1, some .inProgress, fs, [.checkSentinel], floorLines K o ++ [.inProgress]⟩
      else if (K.ovOverlapSortSize * writer.totOvl) % U64 > o.maxMemory then
        some ⟨1, some .notEnoughMemory, AS_UTL_unlink (AS_UTL_createEmptyFile fs N) N,
          [.checkSentinel, .sqStore_open, .loadBucketSizes, .checkMemory],
          floorLines K o ++ [.notEnoughMemory]⟩
      else if UINT32_MAX ≤ config.numBuckets then
        none
      else if (loaded writer config.numBuckets).length ≠ writer.totOvl then
        some ⟨1, some .countMismatch, AS_UTL_createEmptyFile fs N, callsToLoad config writer,
          floorLines K o ++ [.countMismatch]⟩
      else
        some ⟨0, none, AS_UTL_unlink (AS_UTL_createEmptyFile fs N) N,
          callsOfSuccess lt config writer o, floorLines K o⟩ := by
  by_cases h1 : o.ovlName = none ∨ o.sliceNum = UINT32_MAX ∨ o.err ≠ []
  · have : 0 < ((if o.sliceNum = UINT32_MAX then
        (if o.ovlName = none then o.err ++ ["ERROR: No overlap store (-O) supplied."] else o.err)
          ++ ["ERROR: no slice number (-F) supplied."]
        else (if o.ovlName = none then o.err ++ ["ERROR: No overlap store (-O) supplied."]
          else o.err))).length := by
      rcases h1 with h | h | h
      · split <;> simp [h]
      · simp [h]
      · have : 0 < o.err.length := List.length_pos.mpr h
        split
        · split
          · simp only [List.length_append]
            omega
          · simp only [List.length_append]
            omega
        · split
          · simp only [List.length_append]
            omega
          · omega
    simp only [main, floorLines, if_pos h1]
    rw [if_pos (by simpa using this)]
  · have h1n := h1
    push_neg at h1n
    obtain ⟨ha, hb, hc⟩ := h1n
    have h1e : ¬(o.ovlName = none ∨ o.sliceNum = UINT32_MAX ∨ ([] : List String) ≠ []) := by
      simpa [hc] using h1
    simp only [main, floorLines, if_neg h1e, if_neg ha, if_neg hb, hc, List.length_nil,
      gt_iff_lt, lt_self_iff_false, if_false, checkSentinel, AS_UTL_fileExists]
    by_cases h2 : o.sliceNum = 0 ∨ o.sliceNum > config.numSlices
    · simp only [if_pos h2]
    · simp only [if_neg h2]
      by_cases h3 : (fs (sentinelName (o.ovlName.getD "") o.sliceNum)).isSome = true
      · simp only [if_pos h3]
      · simp only [if_neg h3, checkMemory, removeSentinel]
        by_cases h4 : (K.ovOverlapSortSize * writer.totOvl) % U64 > o.maxMemory
        · simp only [if_pos h4]
        · simp only [if_neg h4]
          by_cases h5 : UINT32_MAX ≤ config.numBuckets
          · simp only [if_pos h5, loadLoop_diverges writer _ h5]
          · simp only [if_neg h5, loadLoop_main writer _ (Nat.lt_of_not_le h5)]
            by_cases h6 : (loaded writer config.numBuckets).length ≠ writer.totOvl
            · simp only [if_pos h6, callsToLoad]
            · simp only [if_neg h6, callsOfSuccess, callsToLoad]
              cases o.deleteIntermediateEarly <;> cases o.deleteIntermediateLate <;> simp


theorem written_callsToLoad {α : Type} (config : ovStoreConfig) (writer : ovStoreSliceWriter α) :
    (callsToLoad config writer).filterMap Call.written = [] := by
  simp [callsToLoad, loadCalls, Call.written, List.filterMap_map, List.filterMap_eq_nil_iff]

theorem written_callsOfSuccess {α : Type} (lt : α → α → Bool) (config : ovStoreConfig)
    (writer : ovStoreSliceWriter α) (o : Options) :
    (callsOfSuccess lt config writer o).filterMap Call.written
      = [sort lt (loaded writer config.numBuckets)] := by
  simp only [callsOfSuccess, List.filterMap_append, written_callsToLoad]
  cases o.deleteIntermediateEarly <;> cases o.deleteIntermediateLate <;> simp [Call.written]

theorem callsToLoad_preparing {α : Type} (config : ovStoreConfig)
    (writer : ovStoreSliceWriter α) (c : Call α) (hc : c ∈ callsToLoad config writer) :
    c.preparing = true := by
  simp only [callsToLoad, loadCalls, List.mem_append, List.mem_cons, List.mem_map,
    List.mem_range, List.mem_singleton, List.not_mem_nil, or_false] at hc
  rcases hc with (h | h | h | h | h) | ⟨bb, _, h⟩ <;> subst h <;> rfl

/-- C3.  In every run of `main` that ends with status 0, exactly one sequence is handed to
`writeOverlaps`; it is sorted by the record's order (any asymmetric, transitive `operator<`, so
any total order) and is a permutation of the records loaded from the buckets `0..numBuckets`,
hence has as many records. -/
theorem main_writes_sorted_permutation {α : Type} (K : Constants) (lt : α → α → Bool)
    (config : ovStoreConfig) (writer : ovStoreSliceWriter α) (o : Options) (fs : FileSystem)
    (r : Run α)
    (hasym : ∀ a b, lt a b = true → lt b a = false)
    (htrans : ∀ a b c, lt a b = true → lt b c = true → lt a c = true)
    (hrun : main K lt config writer o fs = some r) (hok : r.status = 0) :
    ∃ out, r.written = [out] ∧ SortedBy lt out ∧
      out.Perm (loaded writer config.numBuckets) ∧
      out.length = (loaded writer config.numBuckets).length := by
  rw [main_eq] at hrun
  simp only at hrun
  split_ifs at hrun <;> obtain rfl := Option.some.inj hrun <;> simp at hok
  refine ⟨sort lt (loaded writer config.numBuckets), ?_, sort_sorted lt hasym htrans _,
    sort_perm lt _, (sort_perm lt _).length_eq⟩
  simp [Run.written, written_callsOfSuccess]

theorem natLt_asymm (a b : Nat) (h : natLt a b = true) : natLt b a = false := by
  simp only [natLt, decide_eq_true_eq, decide_eq_false_iff_not] at *
  omega

theorem natLt_trans (a b c : Nat) (h1 : natLt a b = true) (h2 : natLt b c = true) :
    natLt a c = true := by
  simp only [natLt, decide_eq_true_eq] at *
  omega

/-- Witness for C3: the scenario of the specification ends with status 0 and hands its twelve
records to `writeOverlaps` in increasing order. -/
theorem main_writes_sorted_permutation_witness :
    ∃ r, main exampleConstants natLt exampleConfig exampleWriter exampleOptions emptyFS = some r ∧
      r.status = 0 ∧
      ∃ out, r.written = [out] ∧ SortedBy natLt out ∧
        out.Perm (loaded exampleWriter exampleConfig.numBuckets) ∧
        out.length = (loaded exampleWriter exampleConfig.numBuckets).length :=
  ⟨_, rfl, rfl,
    main_writes_sorted_permutation exampleConstants natLt exampleConfig exampleWriter
      exampleOptions emptyFS _ natLt_asymm natLt_trans rfl rfl⟩

/-! ### `checkMemory` -/

theorem checkMemory_exits_iff (K : Constants) (fs : FileSystem) (ovlName : String)
    (sliceNum totOvl maxMemory : Nat) :
    (checkMemory K fs ovlName sliceNum totOvl maxMemory).exitStatus = some 1 ↔
      (K.ovOverlapSortSize * totOvl) % U64 > maxMemory := by
  unfold checkMemory
  split <;> simp [Outcome.exitStatus, *]

theorem checkMemory_returns_iff (K : Constants) (fs : FileSystem) (ovlName : String)
    (sliceNum totOvl maxMemory : Nat) :
    (checkMemory K fs ovlName sliceNum totOvl maxMemory).exitStatus = none ↔
      (K.ovOverlapSortSize * totOvl) % U64 ≤ maxMemory := by
  unfold checkMemory
  split <;> simp [Outcome.exitStatus, *]
  omega

/-- Where the product of record size and record count is below `2^64`, `checkMemory` stops the
process exactly when the product exceeds the cap. -/
theorem checkMemory_exact (K : Constants) (fs : FileSystem) (ovlName : String)
    (sliceNum totOvl maxMemory : Nat) (hfit : K.ovOverlapSortSize * totOvl < U64) :
    ((checkMemory K fs ovlName sliceNum totOvl maxMemory).exitStatus = some 1 ↔
        K.ovOverlapSortSize * totOvl > maxMemory) ∧
    ((checkMemory K fs ovlName sliceNum totOvl maxMemory).exitStatus = none ↔
        K.ovOverlapSortSize * totOvl ≤ maxMemory) := by
  rw [checkMemory_exits_iff, checkMemory_returns_iff, Nat.mod_eq_of_lt hfit]
  exact ⟨Iff.rfl, Iff.rfl⟩

/-- With the cap `UINT64_MAX` (no `-M`), `checkMemory` returns. -/
theorem checkMemory_unconstrained (K : Constants) (fs : FileSystem) (ovlName : String)
    (sliceNum totOvl : Nat) :
    (checkMemory K fs ovlName sliceNum totOvl UINT64_MAX).exitStatus = none := by
  rw [checkMemory_returns_iff]
  have := Nat.mod_lt (K.ovOverlapSortSize * totOvl) (show 0 < U64 by decide)
  simp only [U64, UINT64_MAX] at *
  omega

/-- C4 (the code at the failing input).  With records of 24 bytes, 768614336404564651 records
need 18446744073709551624 bytes, more than a cap of one gigabyte; the `uint64` product is 8 and
`checkMemory` returns instead of stopping the process. -/
theorem checkMemory_overflow :
    24 * 768614336404564651 > 2 ^ 30 ∧
    768614336404564651 < U64 ∧
    (checkMemory exampleConstants emptyFS "store" 3 768614336404564651 (2 ^ 30)).exitStatus
      = none := by
  decide

/-! ### The memory budget in `main` -/

theorem createEmptyFile_unlink (fs : FileSystem) (N : String) (h : fs N = none) :
    AS_UTL_unlink (AS_UTL_createEmptyFile fs N) N = fs := by
  funext p
  unfold AS_UTL_unlink AS_UTL_createEmptyFile
  by_cases hp : p = N
  · simp [hp, h]
  · simp [hp]

/-- Counterexample to C5 as stated: the sentinel of slice 3 is there when the run starts, the
twelve records of 24 bytes exceed a cap of 108 bytes, the run ends with status 1 and the
sentinel file still exists. -/
theorem main_memory_counterexample :
    exampleConstants.ovOverlapSortSize * exampleWriter.totOvl > 108 ∧
    (main exampleConstants natLt exampleConfig exampleWriter
        { exampleOptions with maxMemory := 108 } heldFS).map
      (fun r => (r.status, r.why, (r.fs (sentinelName "store" 3)).isSome))
      = some (1, some Diagnostic.inProgress, true) := by
  decide

/-- C5 (as amended).  When the sentinel of the slice is absent at the start and the records need
more than the cap (record size times `totOvl`, a product below `2^64`), the run ends with
status 1 and, at the end, the sentinel does not exist; the working set was not allocated,
nothing was handed to `writeOverlaps` and `removeOverlapSlice` was not called. -/
theorem main_memory_exceeded {α : Type} (K : Constants) (lt : α → α → Bool)
    (config : ovStoreConfig) (writer : ovStoreSliceWriter α) (o : Options) (fs : FileSystem)
    (store : String) (hname : o.ovlName = some store)
    (habsent : fs (sentinelName store o.sliceNum) = none)
    (hfit : K.ovOverlapSortSize * writer.totOvl < U64)
    (hmem : K.ovOverlapSortSize * writer.totOvl > o.maxMemory) :
    ∃ r, main K lt config writer o fs = some r ∧ r.status = 1 ∧
      r.fs (sentinelName store o.sliceNum) = none ∧
      (∀ n, Call.allocateOverlaps n ∉ r.calls) ∧ r.written = [] ∧
      Call.removeOverlapSlice ∉ r.calls := by
  have hmod : (K.ovOverlapSortSize * writer.totOvl) % U64 > o.maxMemory := by
    rw [Nat.mod_eq_of_lt hfit]
    exact hmem
  have hN : (fs (sentinelName store o.sliceNum)).isSome ≠ true := by simp [habsent]
  have hget : o.ovlName.getD "" = store := by simp [hname]
  rw [main_eq]
  simp only [hget]
  by_cases h1 : o.ovlName = none ∨ o.sliceNum = UINT32_MAX ∨ o.err ≠ []
  · rw [if_pos h1]
    exact ⟨_, rfl, rfl, habsent, by simp, by simp [Run.written], by simp⟩
  · rw [if_neg h1]
    by_cases h2 : o.sliceNum = 0 ∨ o.sliceNum > config.numSlices
    · rw [if_pos h2]
      exact ⟨_, rfl, rfl, habsent, by simp, by simp [Run.written, Call.written], by simp⟩
    · rw [if_neg h2, if_neg hN, if_pos hmod]
      refine ⟨_, rfl, rfl, ?_, by simp, by simp [Run.written, Call.written], by simp⟩
      simp [AS_UTL_unlink]

/-- Witness for C5: the scenario of the specification with a cap of 108 bytes (`-M 0.0000001`). -/
theorem main_memory_exceeded_witness :
    exampleConstants.ovOverlapSortSize * exampleWriter.totOvl > 108 ∧
    ∃ r, main exampleConstants natLt exampleConfig exampleWriter
        { exampleOptions with maxMemory := 108 } emptyFS = some r ∧ r.status = 1 ∧
      r.fs (sentinelName "store" 3) = none ∧
      (∀ n, Call.allocateOverlaps n ∉ r.calls) ∧ r.written = [] ∧
      Call.removeOverlapSlice ∉ r.calls :=
  ⟨by decide,
    main_memory_exceeded exampleConstants natLt exampleConfig exampleWriter
      { exampleOptions with maxMemory := 108 } emptyFS "store" rfl rfl (by decide) (by decide)⟩

/-! ### The `-force` option -/

/-- The value of `forceRun` has no effect on a run of `main`. -/
theorem main_forceRun_irrelevant {α : Type} (K : Constants) (lt : α → α → Bool)
    (config : ovStoreConfig) (writer : ovStoreSliceWriter α) (o : Options) (fs : FileSystem)
    (b : Bool) :
    main K lt config writer { o with forceRun := b } fs = main K lt config writer o fs := rfl

/-- C6 (the code at the failing input).  With `-force` set and the sentinel of slice 3 present,
the run stops in `checkSentinel` with status 1 and the diagnostic that the job is in progress;
nothing else is called. -/
theorem main_force_in_progress :
    (main exampleConstants natLt exampleConfig exampleWriter
        { exampleOptions with forceRun := true } heldFS).map
      (fun r => (r.status, r.why, r.calls))
      = some (1, some Diagnostic.inProgress, [Call.checkSentinel]) := by
  decide

/-! ### `checkSentinel` -/

/-- C7.  `checkSentinel(store, s, config)` returns exactly when `1 <= s <= numSlices` and the
sentinel file of slice `s` does not exist, and stops the process with status 1 otherwise.  The
file system it leaves is the one it found, except that after a return the sentinel file of
slice `s` exists and is empty. -/
theorem checkSentinel_spec (fs : FileSystem) (store : String) (s : Nat) (config : ovStoreConfig) :
    (checkSentinel fs store s config).exitStatus =
      (if 1 ≤ s ∧ s ≤ config.numSlices ∧ fs (sentinelName store s) = none then none
       else some 1) ∧
    ∀ p, (checkSentinel fs store s config).state p =
      if (1 ≤ s ∧ s ≤ config.numSlices ∧ fs (sentinelName store s) = none) ∧
          p = sentinelName store s then some []
      else fs p := by
  unfold checkSentinel
  by_cases h1 : s = 0 ∨ s > config.numSlices
  · have hc : ¬(1 ≤ s ∧ s ≤ config.numSlices ∧ fs (sentinelName store s) = none) := by
      rintro ⟨ha, hb, _⟩
      omega
    simp [h1, hc, Outcome.exitStatus, Outcome.state]
  · have hr : 1 ≤ s ∧ s ≤ config.numSlices := by omega
    cases hf : fs (sentinelName store s) with
    | none =>
      simp [h1, hr, hf, Outcome.exitStatus, Outcome.state, AS_UTL_fileExists,
        AS_UTL_createEmptyFile]
    | some c =>
      simp [h1, hf, Outcome.exitStatus, Outcome.state, AS_UTL_fileExists]

/-- C8.  After a `checkSentinel` that returned, a second `checkSentinel` for the same slice on
the file system the first one left stops the process with status 1: the job is in progress. -/
theorem checkSentinel_twice (fs fs1 : FileSystem) (store : String) (s : Nat)
    (config : ovStoreConfig) (h : checkSentinel fs store s config = .returned fs1) :
    checkSentinel fs1 store s config = .exited 1 .inProgress fs1 := by
  unfold checkSentinel at h
  split at h
  · cases h
  · rename_i hrange
    simp only at h
    split at h
    · cases h
    · injection h with h
      subst h
      unfold checkSentinel
      rw [if_neg hrange]
      simp [AS_UTL_fileExists, AS_UTL_createEmptyFile]

/-- Witness for C8: slice 3 of the example store, starting without files. -/
theorem checkSentinel_twice_witness :
    checkSentinel emptyFS "store" 3 exampleConfig
      = .returned (AS_UTL_createEmptyFile emptyFS (sentinelName "store" 3)) ∧
    checkSentinel (AS_UTL_createEmptyFile emptyFS (sentinelName "store" 3)) "store" 3
        exampleConfig
      = .exited 1 .inProgress (AS_UTL_createEmptyFile emptyFS (sentinelName "store" 3)) :=
  ⟨rfl, checkSentinel_twice emptyFS _ "store" 3 exampleConfig rfl⟩

/-! ### The floor of the memory cap -/

/-- C9 (the code at the failing input).  A cap of 108 bytes is below the floor of overhead plus
one record.  On a slice without overlaps the run prints the `ERROR:` line for the floor and
goes on: `checkSentinel` creates the sentinel, the slice is loaded, sorted and written, and the
run ends with status 0.  On the twelve records of the example it gets as far as
`checkMemory`, after the sentinel was created. -/
theorem main_below_floor_runs :
    108 < exampleConstants.OVSTORE_MEMORY_OVERHEAD + exampleConstants.ovOverlapSortSize ∧
    (main exampleConstants natLt exampleConfig emptyWriter
        { exampleOptions with maxMemory := 108 } emptyFS).map
      (fun r => (r.status, r.stderr, r.calls))
      = some (0, [Diagnostic.memoryFloor],
          [Call.checkSentinel, Call.sqStore_open, Call.loadBucketSizes, Call.checkMemory,
           Call.allocateOverlaps 0, Call.loadOverlapsFromBucket 0 0,
           Call.loadOverlapsFromBucket 1 0, Call.loadOverlapsFromBucket 2 0, Call.sort,
           Call.writeOverlaps [], Call.removeSentinel, Call.sqStore_close]) ∧
    (main exampleConstants natLt exampleConfig exampleWriter
        { exampleOptions with maxMemory := 108 } emptyFS).map
      (fun r => (r.status, r.stderr, r.calls))
      = some (1, [Diagnostic.memoryFloor, Diagnostic.notEnoughMemory],
          [Call.checkSentinel, Call.sqStore_open, Call.loadBucketSizes, Call.checkMemory]) := by
  decide

/-! ### The count of loaded records -/

/-- C10.  In a run that passes validation, acquires the sentinel, passes the memory check and
loads a number of records different from `totOvl`, `main` ends with status 1 on the count
diagnostic: `sort` was not called, nothing was handed to `writeOverlaps`, `removeOverlapSlice`
was not called, and the (empty) sentinel file of the slice exists at the end. -/
theorem main_count_mismatch {α : Type} (K : Constants) (lt : α → α → Bool)
    (config : ovStoreConfig) (writer : ovStoreSliceWriter α) (o : Options) (fs : FileSystem)
    (store : String) (hname : o.ovlName = some store) (hslice : o.sliceNum ≠ UINT32_MAX)
    (herr : o.err = []) (hlo : 1 ≤ o.sliceNum) (hhi : o.sliceNum ≤ config.numSlices)
    (habsent : fs (sentinelName store o.sliceNum) = none)
    (hmem : (K.ovOverlapSortSize * writer.totOvl) % U64 ≤ o.maxMemory)
    (hnb : config.numBuckets < UINT32_MAX)
    (hne : (loaded writer config.numBuckets).length ≠ writer.totOvl) :
    ∃ r, main K lt config writer o fs = some r ∧ r.status = 1 ∧
      r.why = some Diagnostic.countMismatch ∧
      Call.sort ∉ r.calls ∧ r.written = [] ∧ Call.removeOverlapSlice ∉ r.calls ∧
      r.fs (sentinelName store o.sliceNum) = some [] := by
  have hget : o.ovlName.getD "" = store := by simp [hname]
  have h1 : ¬(o.ovlName = none ∨ o.sliceNum = UINT32_MAX ∨ o.err ≠ []) := by
    simp [hname, hslice, herr]
  have h2 : ¬(o.sliceNum = 0 ∨ o.sliceNum > config.numSlices) := by omega
  have h3 : (fs (sentinelName store o.sliceNum)).isSome ≠ true := by simp [habsent]
  have h4 : ¬((K.ovOverlapSortSize * writer.totOvl) % U64 > o.maxMemory) := by omega
  have h5 : ¬(UINT32_MAX ≤ config.numBuckets) := by omega
  rw [main_eq]
  simp only [hget]
  rw [if_neg h1, if_neg h2, if_neg h3, if_neg h4, if_neg h5, if_pos hne]
  refine ⟨_, rfl, rfl, rfl, ?_, ?_, ?_, ?_⟩
  · intro hmem
    exact absurd (callsToLoad_preparing config writer _ hmem) (by simp [Call.preparing])
  · simp [Run.written, written_callsToLoad]
  · intro hmem
    exact absurd (callsToLoad_preparing config writer _ hmem) (by simp [Call.preparing])
  · simp [AS_UTL_createEmptyFile]

/-- Witness for C10: the example with a second bucket that delivers 6 of its 7 records. -/
theorem main_count_mismatch_witness :
    (loaded shortWriter exampleConfig.numBuckets).length ≠ shortWriter.totOvl ∧
    ∃ r, main exampleConstants natLt exampleConfig shortWriter exampleOptions emptyFS = some r ∧
      r.status = 1 ∧ r.why = some Diagnostic.countMismatch ∧
      Call.sort ∉ r.calls ∧ r.written = [] ∧ Call.removeOverlapSlice ∉ r.calls ∧
      r.fs (sentinelName "store" exampleOptions.sliceNum) = some [] :=
  ⟨by decide,
    main_count_mismatch exampleConstants natLt exampleConfig shortWriter exampleOptions emptyFS
      "store" rfl (by decide) rfl (by decide) (by decide) rfl (by decide) (by decide)
      (by decide)⟩

/-! ### The sentinel at the fatal exits -/

/-- Counterexample to C11 as stated: the second bucket delivers 6 of its 7 records, the run ends
with status 1 on the count diagnostic, and the sentinel of the slice exists at the end. -/
theorem main_mismatch_keeps_sentinel :
    (main exampleConstants natLt exampleConfig shortWriter exampleOptions emptyFS).map
      (fun r => (r.status, r.why, (r.fs (sentinelName "store" 3)).isSome))
      = some (1, some Diagnostic.countMismatch, true) := by
  decide

/-- C11 (as amended).  A run that ends on the memory diagnostic has status 1 and has removed the
sentinel: at the end the sentinel file of the slice does not exist.  A run that ends on the
count diagnostic has status 1 and has not removed it: the (empty) sentinel file exists. -/
theorem main_fatal_exit_sentinel {α : Type} (K : Constants) (lt : α → α → Bool)
    (config : ovStoreConfig) (writer : ovStoreSliceWriter α) (o : Options) (fs : FileSystem)
    (r : Run α) (store : String) (hname : o.ovlName = some store)
    (hrun : main K lt config writer o fs = some r) :
    (r.why = some Diagnostic.notEnoughMemory →
      r.status = 1 ∧ r.fs (sentinelName store o.sliceNum) = none) ∧
    (r.why = some Diagnostic.countMismatch →
      r.status = 1 ∧ r.fs (sentinelName store o.sliceNum) = some []) := by
  have hget : o.ovlName.getD "" = store := by simp [hname]
  rw [main_eq] at hrun
  simp only [hget] at hrun
  split_ifs at hrun
  all_goals
    obtain rfl := Option.some.inj hrun
    refine ⟨fun h => ?_, fun h => ?_⟩
    all_goals first
      | (simp at h; done)
      | simp [AS_UTL_unlink, AS_UTL_createEmptyFile]

/-- Witness for C11: the twelve records of the example under a cap of 108 bytes. -/
theorem main_fatal_exit_sentinel_witness :
    ∃ r, main exampleConstants natLt exampleConfig exampleWriter
        { exampleOptions with maxMemory := 108 } emptyFS = some r ∧
      r.why = some Diagnostic.notEnoughMemory ∧
      (r.why = some Diagnostic.notEnoughMemory →
        r.status = 1 ∧ r.fs (sentinelName "store" 3) = none) ∧
      (r.why = some Diagnostic.countMismatch →
        r.status = 1 ∧ r.fs (sentinelName "store" 3) = some []) :=
  ⟨_, rfl, rfl,
    main_fatal_exit_sentinel exampleConstants natLt exampleConfig exampleWriter
      { exampleOptions with maxMemory := 108 } emptyFS _ "store" rfl rfl⟩

/-! ### `removeSentinel` -/

/-- C16.  `removeSentinel(store, s)` returns, whatever the file system; afterwards the sentinel
file of slice `s` is absent and every other file is as before.  Calling it twice gives the file
system of calling it once, and when the sentinel is absent it changes nothing. -/
theorem removeSentinel_spec (fs : FileSystem) (store : String) (s : Nat) :
    (∀ p, removeSentinel fs store s p = if p = sentinelName store s then none else fs p) ∧
    removeSentinel (removeSentinel fs store s) store s = removeSentinel fs store s ∧
    (fs (sentinelName store s) = none → removeSentinel fs store s = fs) := by
  refine ⟨fun p => rfl, ?_, fun h => ?_⟩
  · funext p
    simp only [removeSentinel, AS_UTL_unlink]
    split <;> rfl
  · funext p
    simp only [removeSentinel, AS_UTL_unlink]
    split
    · rename_i hp
      rw [hp, h]
    · rfl

/-- C20.  For a slice in `1..numSlices` whose sentinel is absent, `checkSentinel` returns, and
`removeSentinel` for the same slice on the file system it left gives back the file system
`checkSentinel` started from. -/
theorem checkSentinel_removeSentinel (fs : FileSystem) (store : String) (s : Nat)
    (config : ovStoreConfig) (hlo : 1 ≤ s) (hhi : s ≤ config.numSlices)
    (habsent : fs (sentinelName store s) = none) :
    ∃ fs1, checkSentinel fs store s config = .returned fs1 ∧
      removeSentinel fs1 store s = fs := by
  have hrange : ¬(s = 0 ∨ s > config.numSlices) := by omega
  refine ⟨AS_UTL_createEmptyFile fs (sentinelName store s), ?_, ?_⟩
  · simp [checkSentinel, hrange, AS_UTL_fileExists, habsent]
  · exact createEmptyFile_unlink fs _ habsent

/-- Witness for C20: slice 3 of the example store, starting without files. -/
theorem checkSentinel_removeSentinel_witness :
    emptyFS (sentinelName "store" 3) = none ∧
    ∃ fs1, checkSentinel emptyFS "store" 3 exampleConfig = .returned fs1 ∧
      removeSentinel fs1 "store" 3 = emptyFS :=
  ⟨rfl, checkSentinel_removeSentinel emptyFS "store" 3 exampleConfig (by decide) (by decide) rfl⟩

/-! ### The order of the calls in a successful run -/

theorem main_success {α : Type} (K : Constants) (lt : α → α → Bool)
    (config : ovStoreConfig) (writer : ovStoreSliceWriter α) (o : Options) (fs : FileSystem)
    (r : Run α) (hrun : main K lt config writer o fs = some r) (hok : r.status = 0) :
    ¬(o.sliceNum = 0 ∨ o.sliceNum > config.numSlices) ∧
    fs (sentinelName (o.ovlName.getD "") o.sliceNum) = none ∧
    (loaded writer config.numBuckets).length = writer.totOvl ∧
    r.fs = AS_UTL_unlink (AS_UTL_createEmptyFile fs
      (sentinelName (o.ovlName.getD "") o.sliceNum))
      (sentinelName (o.ovlName.getD "") o.sliceNum) ∧
    r.calls = callsOfSuccess lt config writer o := by
  rw [main_eq] at hrun
  simp only at hrun
  split_ifs at hrun with h1 h2 h3 h4 h5 h6 <;> obtain rfl := Option.some.inj hrun <;>
    simp at hok
  refine ⟨h2, ?_, by simpa using h6, rfl, rfl⟩
  simpa using h3

theorem main_failure {α : Type} (K : Constants) (lt : α → α → Bool)
    (config : ovStoreConfig) (writer : ovStoreSliceWriter α) (o : Options) (fs : FileSystem)
    (r : Run α) (hrun : main K lt config writer o fs = some r) (hbad : r.status ≠ 0) :
    r.calls = [] ∨ r.calls = [Call.checkSentinel] ∨
      r.calls = [Call.checkSentinel, Call.sqStore_open, Call.loadBucketSizes, Call.checkMemory] ∨
      r.calls = callsToLoad config writer := by
  rw [main_eq] at hrun
  simp only at hrun
  split_ifs at hrun <;> obtain rfl := Option.some.inj hrun <;> simp at hbad ⊢

/-- C12.  In every run of `main` that ends with status 0 the sentinel of the slice was absent at
the start; `checkSentinel` is the first call and creates the (empty) sentinel file, so before
any bucket is read; `removeSentinel` is called once, directly after `writeOverlaps` has returned;
and at the end the sentinel file does not exist. -/
theorem main_success_sentinel {α : Type} (K : Constants) (lt : α → α → Bool)
    (config : ovStoreConfig) (writer : ovStoreSliceWriter α) (o : Options) (fs : FileSystem)
    (r : Run α) (store : String) (hname : o.ovlName = some store)
    (hrun : main K lt config writer o fs = some r) (hok : r.status = 0) :
    fs (sentinelName store o.sliceNum) = none ∧
    (∃ fs1, checkSentinel fs store o.sliceNum config = .returned fs1 ∧
      fs1 (sentinelName store o.sliceNum) = some [] ∧
      r.fs = removeSentinel fs1 store o.sliceNum) ∧
    r.fs (sentinelName store o.sliceNum) = none ∧
    ∃ mid tail out,
      r.calls = Call.checkSentinel :: mid ++ Call.writeOverlaps out :: Call.removeSentinel :: tail ∧
      Call.checkSentinel ∉ mid ∧ Call.removeSentinel ∉ mid ∧
      Call.checkSentinel ∉ tail ∧ Call.removeSentinel ∉ tail ∧
      ∀ c ∈ tail, c.preparing = false := by
  have hget : o.ovlName.getD "" = store := by simp [hname]
  obtain ⟨hrange, habsent, _, hfs, hcalls⟩ := main_success K lt config writer o fs r hrun hok
  rw [hget] at habsent hfs
  refine ⟨habsent, ⟨AS_UTL_createEmptyFile fs (sentinelName store o.sliceNum), ?_, ?_, hfs⟩,
    ?_, ?_⟩
  · simp [checkSentinel, hrange, AS_UTL_fileExists, habsent]
  · simp [AS_UTL_createEmptyFile]
  · rw [hfs]
    simp [AS_UTL_unlink]
  · refine ⟨[Call.sqStore_open, Call.loadBucketSizes, Call.checkMemory,
        Call.allocateOverlaps writer.totOvl] ++ loadCalls writer config.numBuckets
        ++ (if o.deleteIntermediateEarly then [Call.removeOverlapSlice] else []) ++ [Call.sort],
      [Call.sqStore_close]
        ++ (if o.deleteIntermediateLate then [Call.removeOverlapSlice] else []),
      sort lt (loaded writer config.numBuckets), ?_, ?_, ?_, ?_, ?_, ?_⟩
    · rw [hcalls]
      simp [callsOfSuccess, callsToLoad]
    · cases o.deleteIntermediateEarly <;> simp [loadCalls]
    · cases o.deleteIntermediateEarly <;> simp [loadCalls]
    · cases o.deleteIntermediateLate <;> simp
    · cases o.deleteIntermediateLate <;> simp
    · cases o.deleteIntermediateLate <;> simp [Call.preparing]

/-- Witness for C12: the scenario of the specification. -/
theorem main_success_sentinel_witness :
    ∃ r, main exampleConstants natLt exampleConfig exampleWriter exampleOptions emptyFS = some r ∧
      r.status = 0 ∧
      emptyFS (sentinelName "store" 3) = none ∧
      (∃ fs1, checkSentinel emptyFS "store" 3 exampleConfig = .returned fs1 ∧
        fs1 (sentinelName "store" 3) = some [] ∧
        r.fs = removeSentinel fs1 "store" 3) ∧
      r.fs (sentinelName "store" 3) = none ∧
      ∃ mid tail out,
        r.calls = Call.checkSentinel :: mid ++ Call.writeOverlaps out :: Call.removeSentinel :: tail ∧
        Call.checkSentinel ∉ mid ∧ Call.removeSentinel ∉ mid ∧
        Call.checkSentinel ∉ tail ∧ Call.removeSentinel ∉ tail ∧
        ∀ c ∈ tail, c.preparing = false :=
  ⟨_, rfl, rfl,
    main_success_sentinel exampleConstants natLt exampleConfig exampleWriter exampleOptions
      emptyFS _ "store" rfl rfl rfl⟩

/-! ### Where the bucket files are removed -/

/-- Counterexample to C17 as stated: with `-deleteearly` and `-deletelate` both set,
`removeOverlapSlice` is called before `sort` and `writeOverlaps`, that is, before the sorted
output has been written, and once more at the end. -/
theorem main_both_deletes :
    bothDeletes.deleteIntermediateLate = true ∧
    (main exampleConstants natLt exampleConfig exampleWriter bothDeletes emptyFS).map
      (fun r => (r.status, r.calls.drop 8))
      = some (0, [Call.removeOverlapSlice, Call.sort,
          Call.writeOverlaps [1, 2, 3, 4, 5, 6, 7, 10, 20, 30, 40, 50],
          Call.removeSentinel, Call.sqStore_close, Call.removeOverlapSlice]) := by
  decide

/-- C17 (as amended).  A run of `main` that ends with a failure status has not called
`removeOverlapSlice`.  A run that ends with status 0 has loaded exactly `totOvl` records and has
called `removeOverlapSlice` at two places at most: right after the loop over the buckets when
`-deleteearly` is set, and as its last call, after `writeOverlaps`, `removeSentinel` and
`sqStore_close`, when `-deletelate` is set; so without `-deleteearly` no bucket file is removed
before the sorted output has been written. -/
theorem main_removeOverlapSlice {α : Type} (K : Constants) (lt : α → α → Bool)
    (config : ovStoreConfig) (writer : ovStoreSliceWriter α) (o : Options) (fs : FileSystem)
    (r : Run α) (hrun : main K lt config writer o fs = some r) :
    (r.status ≠ 0 → Call.removeOverlapSlice ∉ r.calls) ∧
    (r.status = 0 →
      (loaded writer config.numBuckets).length = writer.totOvl ∧
      Call.removeOverlapSlice ∉ callsToLoad config writer ∧
      ∃ out, r.calls = callsToLoad config writer
        ++ (if o.deleteIntermediateEarly then [Call.removeOverlapSlice] else [])
        ++ [Call.sort, Call.writeOverlaps out, Call.removeSentinel, Call.sqStore_close]
        ++ (if o.deleteIntermediateLate then [Call.removeOverlapSlice] else [])) := by
  have hnot : Call.removeOverlapSlice ∉ callsToLoad config writer := fun hmem =>
    absurd (callsToLoad_preparing config writer _ hmem) (by simp [Call.preparing])
  refine ⟨fun hbad => ?_, fun hok => ?_⟩
  · rcases main_failure K lt config writer o fs r hrun hbad with h | h | h | h <;> rw [h]
    · simp
    · simp
    · simp
    · exact hnot
  · obtain ⟨_, _, hlen, _, hcalls⟩ := main_success K lt config writer o fs r hrun hok
    refine ⟨hlen, hnot, sort lt (loaded writer config.numBuckets), ?_⟩
    rw [hcalls]
    simp [callsOfSuccess]

/-- Witness for C17: the scenario of the specification with `-deletelate`. -/
theorem main_removeOverlapSlice_witness :
    ∃ r, main exampleConstants natLt exampleConfig exampleWriter
        { exampleOptions with deleteIntermediateLate := true } emptyFS = some r ∧
      (r.status ≠ 0 → Call.removeOverlapSlice ∉ r.calls) ∧
      (r.status = 0 →
        (loaded exampleWriter exampleConfig.numBuckets).length = exampleWriter.totOvl ∧
        Call.removeOverlapSlice ∉ callsToLoad exampleConfig exampleWriter ∧
        ∃ out, r.calls = callsToLoad exampleConfig exampleWriter
          ++ (if ({ exampleOptions with deleteIntermediateLate := true } :
                Options).deleteIntermediateEarly then [Call.removeOverlapSlice] else [])
          ++ [Call.sort, Call.writeOverlaps out, Call.removeSentinel, Call.sqStore_close]
          ++ (if ({ exampleOptions with deleteIntermediateLate := true } :
                Options).deleteIntermediateLate then [Call.removeOverlapSlice] else [])) :=
  ⟨_, rfl,
    main_removeOverlapSlice exampleConstants natLt exampleConfig exampleWriter
      { exampleOptions with deleteIntermediateLate := true } emptyFS _ rfl⟩

/-! ### The name of the sentinel -/

theorem digitChar_value (d : Nat) (h : d < 10) : (Nat.digitChar d).toNat - 48 = d := by
  interval_cases d <;> rfl

theorem foldl_toDigitsCore :
    ∀ (fuel n : Nat) (ds : List Char), n < fuel →
      (Nat.toDigitsCore 10 fuel n ds).foldl (fun a c => a * 10 + (c.toNat - 48)) 0
        = ds.foldl (fun a c => a * 10 + (c.toNat - 48)) n
  | 0, _, _, h => absurd h (Nat.not_lt_zero _)
  | fuel + 1, n, ds, h => by
    have hd := digitChar_value (n % 10) (Nat.mod_lt _ (by decide))
    by_cases h0 : n / 10 = 0
    · have hn : n % 10 = n := Nat.mod_eq_of_lt (by omega)
      simp only [Nat.toDigitsCore, h0, if_true, List.foldl_cons, hd, Nat.zero_mul, Nat.zero_add]
      rw [hn]
    · have hn : n / 10 * 10 + n % 10 = n := by omega
      simp only [Nat.toDigitsCore, h0, if_false]
      rw [foldl_toDigitsCore fuel (n / 10) _ (by omega)]
      simp only [List.foldl_cons, hd, hn]

theorem ofDecimal_toDigits (n : Nat) : ofDecimal (Nat.toDigits 10 n) = n := by
  unfold ofDecimal Nat.toDigits
  rw [foldl_toDigitsCore (n + 1) n [] (by omega)]
  rfl

theorem foldl_zeros (k : Nat) (l : List Char) :
    (List.replicate k '0' ++ l).foldl (fun a c => a * 10 + (c.toNat - 48)) 0
      = l.foldl (fun a c => a * 10 + (c.toNat - 48)) 0 := by
  induction k with
  | zero => rfl
  | succ k ih =>
    rw [List.replicate_succ, List.cons_append, List.foldl_cons]
    exact ih

theorem ofDecimal_fmt04u (n : Nat) : ofDecimal (fmt04u n) = n := by
  unfold fmt04u ofDecimal
  simp only []
  rw [foldl_zeros]
  exact ofDecimal_toDigits n

theorem fmt04u_injective (s t : Nat) (h : fmt04u s = fmt04u t) : s = t := by
  rw [← ofDecimal_fmt04u s, ← ofDecimal_fmt04u t, h]

theorem fmt04u_length (n : Nat) (hn : n ≤ UINT32_MAX) :
    4 ≤ (fmt04u n).length ∧ (fmt04u n).length ≤ 10 := by
  have hlen : (Nat.toDigits 10 n).length ≤ 10 :=
    Nat.toDigitsCore_length 10 (by decide) (n + 1) n 10
      (by unfold UINT32_MAX at hn; omega) (by decide)
  unfold fmt04u
  simp only [List.length_append, List.length_replicate]
  omega

theorem sentinelName_short (store : String) (s : Nat)
    (hshort : store.data.length + 20 ≤ FILENAME_MAX) (hs : s ≤ UINT32_MAX) :
    sentinelName store s = String.mk (store.data ++ '/' :: fmt04u s ++ ".started".data) := by
  have hlen := (fmt04u_length s hs).2
  have hext : ".started".data.length = 8 := rfl
  unfold sentinelName
  rw [List.take_of_length_le]
  rw [List.length_append, hext, List.length_append, List.length_cons]
  unfold FILENAME_MAX at hshort ⊢
  omega

theorem sentinelName_long (store : String) (s : Nat)
    (hlong : FILENAME_MAX - 1 ≤ store.data.length) :
    sentinelName store s = String.mk (store.data.take (FILENAME_MAX - 1)) := by
  unfold sentinelName
  rw [List.append_assoc, List.take_append_of_le_length hlong]

/-- Counterexample to C19 as stated: for a store path of 4095 characters `snprintf` keeps only
the store path, and the sentinels of slices 3 and 4 have the same name. -/
theorem sentinelName_collision :
    sentinelName longStore 3 = sentinelName longStore 4 ∧ (3 : Nat) ≠ 4 := by
  have hlong : FILENAME_MAX - 1 ≤ longStore.data.length := by
    show 4096 - 1 ≤ (List.replicate 4095 'a').length
    rw [List.length_replicate]
  exact ⟨by rw [sentinelName_long _ _ hlong, sentinelName_long _ _ hlong], by decide⟩

/-- C19 (as amended).  For a store path short enough for the whole name to fit in the
`FILENAME_MAX` characters of `N` (at most `FILENAME_MAX - 20` characters) and slice indices that
are `uint32` values, the sentinel path is the store path, `/`, the slice index in decimal padded
with zeros to at least four digits, and `.started`; two different slice indices, above 9999 too,
give different sentinel paths. -/
theorem sentinelName_injective (store : String) (s t : Nat)
    (hshort : store.data.length + 20 ≤ FILENAME_MAX) (hs : s ≤ UINT32_MAX)
    (ht : t ≤ UINT32_MAX) :
    sentinelName store s = String.mk (store.data ++ '/' :: fmt04u s ++ ".started".data) ∧
    fmt04u s = List.replicate (4 - (Nat.toDigits 10 s).length) '0' ++ Nat.toDigits 10 s ∧
    4 ≤ (fmt04u s).length ∧ ofDecimal (fmt04u s) = s ∧
    (sentinelName store s = sentinelName store t → s = t) := by
  refine ⟨sentinelName_short store s hshort hs, rfl, (fmt04u_length s hs).1,
    ofDecimal_fmt04u s, fun h => ?_⟩
  rw [sentinelName_short store s hshort hs, sentinelName_short store t hshort ht] at h
  have h1 : store.data ++ '/' :: fmt04u s ++ ".started".data
      = store.data ++ '/' :: fmt04u t ++ ".started".data := congrArg String.data h
  have h2 := List.append_cancel_left (List.append_cancel_right h1)
  exact fmt04u_injective s t (List.cons.inj h2).2

/-- Witness for C19: slices 3 and 12345 of `store`. -/
theorem sentinelName_injective_witness :
    sentinelName "store" 3 = "store/0003.started" ∧
    sentinelName "store" 12345 = "store/12345.started" ∧
    (sentinelName "store" 3 = String.mk ("store".data ++ '/' :: fmt04u 3 ++ ".started".data) ∧
      fmt04u 3 = List.replicate (4 - (Nat.toDigits 10 3).length) '0' ++ Nat.toDigits 10 3 ∧
      4 ≤ (fmt04u 3).length ∧ ofDecimal (fmt04u 3) = 3 ∧
      (sentinelName "store" 3 = sentinelName "store" 12345 → 3 = 12345)) :=
  ⟨by decide, by decide,
    sentinelName_injective "store" 3 12345 (by decide) (by decide) (by decide)⟩

/-! ## Proofs: `writeBuffer` in either mode -/

theorem oneBuffered_run :
    (writeBuffer.create none "w" 4).bind (fun b => b.run [Op.write [1]]) = some oneBuffered := by
  decide

theorem appended_run :
    (writeBuffer.create (some [1, 2]) "a" 4).bind
        (fun b => b.run [Op.write [3, 4, 5], Op.flush, Op.write [6, 7, 8], Op.write [9, 5]])
      = some appended := by
  decide

theorem writeToDisk_frame (b : writeBuffer) (d : List Byte) (n : Nat) :
    (b.writeToDisk d n)._bufferLen = b._bufferLen ∧
    (b.writeToDisk d n)._bufferMax = b._bufferMax ∧
    (b.writeToDisk d n)._buffer = b._buffer ∧
    (b.writeToDisk d n)._filemode = b._filemode := by
  unfold writeBuffer.writeToDisk writeBuffer.open_
  split
  · exact ⟨rfl, rfl, rfl, rfl⟩
  · split <;> exact ⟨rfl, rfl, rfl, rfl⟩

theorem flush_frame (b : writeBuffer) :
    b.flush._bufferLen = 0 ∧ b.flush._bufferMax = b._bufferMax ∧
    b.flush._buffer = b._buffer ∧ b.flush._filemode = b._filemode := by
  obtain ⟨_, h2, h3, h4⟩ := writeToDisk_frame b b._buffer b._bufferLen
  exact ⟨rfl, h2, h3, h4⟩

/-- `write` is `writeOrFault` without the name of the stop. -/
theorem write_eq_writeOrFault (b : writeBuffer) (d : List Byte) (n : Nat) :
    b.write d n = (match b.writeOrFault d n with
      | .ok b1 => some b1
      | .error _ => none) := by
  unfold writeBuffer.write writeBuffer.writeOrFault
  simp only []
  split_ifs <;> first | rfl | (simp only [Option.some_bind]; split_ifs <;> rfl)

/-- The three outcomes of a `write` in a state whose buffered count is within a `uint64`
capacity: the payload fits behind the buffered bytes and is copied; or the `uint64` sum
`_bufferLen + length` wraps and the call stops at the first `assert` or at the `memcpy`; or
the buffer is flushed and the payload is written directly or copied. -/
theorem writeOrFault_cases (b : writeBuffer) (d : List Byte)
    (h1 : b._bufferLen ≤ b._bufferMax) (h2 : b._buffer.length = b._bufferMax)
    (h3 : b._bufferMax < U64) (hd : d.length < U64) :
    b.writeOrFault d d.length =
      if b._bufferLen + d.length ≤ b._bufferMax then .ok (b.copied d)
      else if U64 ≤ b._bufferLen + d.length then
        (if b._bufferMax < d.length then .error .bufferNotEmpty else .error .copyOverrun)
      else if b._bufferMax < d.length then .ok (b.flush.directed d)
      else .ok (b.flush.copied d) := by
  obtain ⟨f1, f2, f3, _⟩ := flush_frame b
  by_cases hA : b._bufferLen + d.length ≤ b._bufferMax
  · have hs : (b._bufferLen + d.length) % U64 = b._bufferLen + d.length :=
      Nat.mod_eq_of_lt (by omega)
    have hn1 : ¬ b._bufferMax < b._bufferLen + d.length := by omega
    have hn2 : ¬ b._bufferMax < d.length := by omega
    have hc : b._bufferLen + d.length ≤ b._buffer.length := by omega
    simp only [writeBuffer.writeOrFault, hs, if_neg hn1, if_neg hn2, if_pos hc, if_pos hA,
      writeBuffer.copied]
  · rw [if_neg hA]
    by_cases hW : U64 ≤ b._bufferLen + d.length
    · have hs : (b._bufferLen + d.length) % U64 = b._bufferLen + d.length - U64 := by
        rw [Nat.mod_eq_sub_mod hW]
        exact Nat.mod_eq_of_lt (by omega)
      have hn1 : ¬ b._bufferMax < b._bufferLen + d.length - U64 := by omega
      have hl : ¬ b._bufferLen = 0 := by omega
      have hc : ¬ b._bufferLen + d.length ≤ b._buffer.length := by omega
      rw [if_pos hW]
      by_cases hbig : b._bufferMax < d.length
      · simp only [writeBuffer.writeOrFault, hs, if_neg hn1, if_neg hl, if_pos hbig]
      · simp only [writeBuffer.writeOrFault, hs, if_neg hn1, if_neg hc, if_neg hbig]
    · have hs : (b._bufferLen + d.length) % U64 = b._bufferLen + d.length :=
        Nat.mod_eq_of_lt (by omega)
      have hp : b._bufferMax < b._bufferLen + d.length := by omega
      rw [if_neg hW]
      simp only [writeBuffer.writeOrFault, hs, if_pos hp, f1, f2, f3]
      by_cases hbig : b._bufferMax < d.length
      · obtain ⟨w1, w2, _, _⟩ := writeToDisk_frame b.flush d d.length
        have hle : (b.flush.writeToDisk d d.length)._bufferLen
            ≤ (b.flush.writeToDisk d d.length)._bufferMax := by
          rw [w1, w2, f1]
          exact Nat.zero_le _
        simp only [if_pos hbig, if_true, if_pos hle, writeBuffer.directed]
      · have hc : 0 + d.length ≤ b._buffer.length := by omega
        have hm : (0 + d.length) % U64 = 0 + d.length := Nat.mod_eq_of_lt (by omega)
        have hle : 0 + d.length ≤ b._bufferMax := by omega
        simp only [if_neg hbig, if_pos hc, hm, if_pos hle, writeBuffer.copied, f1, f2, f3]

theorem pos_step (i s n : Nat) : ((i + s) % U64 + n) % U64 = (i + (s + n)) % U64 := by
  unfold U64
  omega

theorem BInv.of_create (disk0 : Option (List Byte)) (mode : String) (C : Nat) (b0 : writeBuffer)
    (h : writeBuffer.create disk0 mode C = some b0) : BInv disk0 mode C b0 [] := by
  unfold writeBuffer.create at h
  by_cases ha : mode.data.head? = some 'a'
  · simp only [ha, if_true, writeBuffer.open_] at h
    obtain rfl := Option.some.inj h
    constructor <;> simp [initialBytes, ha]
  · by_cases hw : mode.data.head? = some 'w'
    · simp only [if_neg ha, hw, ne_eq, not_true_eq_false, if_false] at h
      obtain rfl := Option.some.inj h
      constructor <;> simp [initialBytes, ha, U64]
    · simp [ha, hw] at h

theorem BInv.after_flush {disk0 : Option (List Byte)} {mode : String} {C : Nat} {b : writeBuffer}
    {sofar : List Byte} (h : BInv disk0 mode C b sofar) :
    BInv disk0 mode C b.flush sofar := by
  obtain ⟨fm, file, pos, len, mx, buf, disk⟩ := b
  obtain ⟨h1, h2, h3, h4, h5, h6, h7⟩ := h
  simp only at h1 h2 h3 h4 h5 h6 h7
  subst h4
  by_cases hl : len = 0
  · subst hl
    simp only [writeBuffer.flush, writeBuffer.writeToDisk, if_true]
    exact ⟨h1, h2, h3, rfl, h5, h6, h7⟩
  · cases file with
    | true =>
      obtain ⟨w, hd, hs⟩ := h7 rfl
      subst hd
      simp only [writeBuffer.flush, writeBuffer.writeToDisk, writeBuffer.open_, if_neg hl,
        if_true]
      refine ⟨h1, h2, Nat.zero_le _, rfl, h5, by simp, fun _ => ⟨w ++ buf.take len, ?_, ?_⟩⟩
      · simp
      · simpa using hs
    | false =>
      obtain ⟨hm, hd, hs⟩ := h6 rfl
      simp only [writeBuffer.flush, writeBuffer.writeToDisk, writeBuffer.open_, if_neg hl,
        if_neg hm]
      refine ⟨h1, h2, Nat.zero_le _, rfl, ?_, by simp, fun _ => ⟨buf.take len, ?_, ?_⟩⟩
      · simp [h5, U64]
      · simp [initialBytes, hm]
      · simpa using hs

theorem BInv.directed {disk0 : Option (List Byte)} {mode : String} {C : Nat} {b : writeBuffer}
    {sofar : List Byte} (h : BInv disk0 mode C b sofar) (d : List Byte)
    (hz : b._bufferLen = 0) (hd : d.length ≠ 0) :
    BInv disk0 mode C (b.directed d) (sofar ++ d) := by
  obtain ⟨fm, file, pos, len, mx, buf, disk⟩ := b
  obtain ⟨h1, h2, h3, h4, h5, h6, h7⟩ := h
  simp only at h1 h2 h3 h4 h5 h6 h7 hz
  subst h4
  subst hz
  cases file with
  | true =>
    obtain ⟨w, hdisk, hs⟩ := h7 rfl
    subst hdisk
    simp only [writeBuffer.directed, writeBuffer.writeToDisk, writeBuffer.open_, if_neg hd,
      if_true]
    refine ⟨h1, h2, h3, rfl, ?_, by simp, fun _ => ⟨w ++ d, ?_, ?_⟩⟩
    · simp only [h5, List.length_append]
      exact pos_step _ _ _
    · simp
    · simp at hs
      simp [hs]
  | false =>
    obtain ⟨hm, hdisk, hs⟩ := h6 rfl
    simp only [writeBuffer.directed, writeBuffer.writeToDisk, writeBuffer.open_, if_neg hd,
      if_neg hm, Bool.false_eq_true, if_false]
    refine ⟨h1, h2, h3, rfl, ?_, by simp, fun _ => ⟨d, ?_, ?_⟩⟩
    · simp only [h5, List.length_append, List.length_nil, Nat.add_zero, Nat.mod_mod]
      exact pos_step _ _ _
    · simp [initialBytes, hm]
    · simp at hs
      simp [hs]

theorem BInv.copied {disk0 : Option (List Byte)} {mode : String} {C : Nat} {b : writeBuffer}
    {sofar : List Byte} (h : BInv disk0 mode C b sofar) (d : List Byte)
    (hfit : b._bufferLen + d.length ≤ C) :
    BInv disk0 mode C (b.copied d) (sofar ++ d) := by
  obtain ⟨fm, file, pos, len, mx, buf, disk⟩ := b
  obtain ⟨h1, h2, h3, h4, h5, h6, h7⟩ := h
  simp only at h1 h2 h3 h4 h5 h6 h7 hfit
  have hlen : len ≤ buf.length := by omega
  have htk := take_overwrite buf d len hlen
  refine ⟨h1, ?_, hfit, h4, ?_, ?_, ?_⟩
  · simp [writeBuffer.copied, List.length_take, Nat.min_eq_left hlen]
    omega
  · simp only [writeBuffer.copied, h5, List.length_append]
    exact pos_step _ _ _
  · intro hf
    obtain ⟨hm, hdisk, hs⟩ := h6 hf
    refine ⟨hm, hdisk, ?_⟩
    simp only [writeBuffer.copied, List.take_length]
    rw [htk, hs]
  · intro hf
    obtain ⟨w, hdisk, hs⟩ := h7 hf
    refine ⟨w, hdisk, ?_⟩
    simp only [writeBuffer.copied, List.take_length]
    rw [htk, ← hs, List.append_assoc]

theorem BInv.after_write {disk0 : Option (List Byte)} {mode : String} {C : Nat} {b b1 : writeBuffer}
    {sofar : List Byte} (h : BInv disk0 mode C b sofar) (d : List Byte) (hC : C < U64)
    (hd : d.length < U64) (hw : b.write d d.length = some b1) :
    BInv disk0 mode C b1 (sofar ++ d) := by
  have hmax := h.max_eq
  have hlen := h.len_le
  have hbuf := h.buf_len
  obtain ⟨f1, f2, _, _⟩ := flush_frame b
  rw [write_eq_writeOrFault,
    writeOrFault_cases b d (by omega) (by omega) (by omega) hd] at hw
  split_ifs at hw with hA hW hbig
  · simp only [Option.some.injEq] at hw
    subst hw
    exact h.copied d (by omega)
  · simp only [Option.some.injEq] at hw
    subst hw
    exact h.after_flush.directed d f1 (by omega)
  · simp only [Option.some.injEq] at hw
    subst hw
    exact h.after_flush.copied d (by omega)

theorem BInv.run {disk0 : Option (List Byte)} {mode : String} {C : Nat} (hC : C < U64) :
    ∀ (ops : List Op) (b b1 : writeBuffer) (sofar : List Byte),
      BInv disk0 mode C b sofar → opsSized ops → b.run ops = some b1 →
      BInv disk0 mode C b1 (sofar ++ opsBytes ops)
  | [], b, b1, sofar, h, _, hr => by
    simp only [writeBuffer.run, Option.some.injEq] at hr
    subst hr
    simpa [opsBytes] using h
  | op :: ops, b, b1, sofar, h, hs, hr => by
    have hs1 : opsSized ops := fun o ho => hs o (List.mem_cons_of_mem _ ho)
    have hop := hs op (List.mem_cons_self _ _)
    simp only [writeBuffer.run] at hr
    cases hstep : b.step op with
    | none => simp [hstep] at hr
    | some b2 =>
      rw [hstep, Option.some_bind] at hr
      have h2 : BInv disk0 mode C b2 (sofar ++ op.bytes) := by
        cases op with
        | write d => exact h.after_write d hC hop hstep
        | flush =>
          simp only [writeBuffer.step, Option.some.injEq] at hstep
          subst hstep
          simpa [Op.bytes] using h.after_flush
      have h3 := BInv.run hC ops b2 b1 _ h2 hs1 hr
      simpa [opsBytes, List.append_assoc] using h3

theorem Reachable.inv {b : writeBuffer} (h : Reachable b) :
    ∃ (disk0 : Option (List Byte)) (mode : String) (C : Nat) (sofar : List Byte),
      C < U64 ∧ BInv disk0 mode C b sofar := by
  obtain ⟨disk0, mode, C, ops, b0, hC, hs, hc, hr⟩ := h
  exact ⟨disk0, mode, C, _, hC,
    BInv.run hC ops b0 b [] (BInv.of_create disk0 mode C b0 hc) hs hr⟩

theorem oneBuffered_reachable : Reachable oneBuffered :=
  ⟨none, "w", 4, [Op.write [1]], _, by decide, by unfold opsSized; decide, rfl, by decide⟩

theorem appended_reachable : Reachable appended :=
  ⟨some [1, 2], "a", 4, [Op.write [3, 4, 5], Op.flush, Op.write [6, 7, 8], Op.write [9, 5]], _,
    by decide, by unfold opsSized; decide, rfl, by decide⟩

/-- C13.  In every reachable state of a `writeBuffer` the buffered byte count is at most the
capacity, and a `write` of any `uint64` length from such a state never stops at the final
`assert(_bufferLen <= _bufferMax)`; when it returns, the count is again at most the capacity. -/
theorem bufferLen_le_bufferMax (b : writeBuffer) (h : Reachable b) :
    b._bufferLen ≤ b._bufferMax ∧
    ∀ d : List Byte, d.length < U64 →
      b.writeFault d d.length ≠ some WriteFault.lengthAboveMax ∧
      ∀ b1, b.write d d.length = some b1 → b1._bufferLen ≤ b1._bufferMax := by
  obtain ⟨disk0, mode, C, sofar, hC, hinv⟩ := h.inv
  have hmax := hinv.max_eq
  have hlen := hinv.len_le
  have hbuf := hinv.buf_len
  refine ⟨by omega, fun d hd => ⟨?_, fun b1 hw => ?_⟩⟩
  · unfold writeBuffer.writeFault
    rw [writeOrFault_cases b d (by omega) (by omega) (by omega) hd]
    split_ifs <;> simp
  · have h1 := hinv.after_write d hC hd hw
    have := h1.max_eq
    have := h1.len_le
    omega

/-- Witness for C13: the write-mode buffer with one byte buffered. -/
theorem bufferLen_le_bufferMax_witness :
    Reachable oneBuffered ∧
    oneBuffered._bufferLen ≤ oneBuffered._bufferMax ∧
    ∀ d : List Byte, d.length < U64 →
      oneBuffered.writeFault d d.length ≠ some WriteFault.lengthAboveMax ∧
      ∀ b1, oneBuffered.write d d.length = some b1 → b1._bufferLen ≤ b1._bufferMax :=
  ⟨oneBuffered_reachable, bufferLen_le_bufferMax oneBuffered oneBuffered_reachable⟩

theorem directed_file (b : writeBuffer) (d : List Byte) (hd : d.length ≠ 0) :
    (b.directed d)._file = true := by
  unfold writeBuffer.directed writeBuffer.writeToDisk writeBuffer.open_
  rw [if_neg hd]
  split
  · assumption
  · rfl

theorem BInv.buffered_length {disk0 : Option (List Byte)} {mode : String} {C : Nat}
    {b : writeBuffer} {sofar : List Byte} (h : BInv disk0 mode C b sofar) :
    b.buffered.length = b._bufferLen := by
  have h1 := h.buf_len
  have h2 := h.len_le
  unfold writeBuffer.buffered
  rw [List.length_take]
  omega

theorem BInv.content {disk0 : Option (List Byte)} {mode : String} {C : Nat} {b : writeBuffer}
    {sofar : List Byte} (h : BInv disk0 mode C b sofar) :
    b.onDisk ++ b.buffered = initialBytes disk0 mode ++ sofar := by
  unfold writeBuffer.onDisk writeBuffer.buffered
  cases hf : b._file with
  | true =>
    obtain ⟨w, hd, hs⟩ := h.opened hf
    simp [hd, ← hs]
  | false =>
    obtain ⟨hm, _, hs⟩ := h.closed hf
    simp [hs, initialBytes, hm]

theorem hugePayload_length : hugePayload.length = 2 ^ 64 - 1 :=
  List.length_replicate _ _

theorem writeFault_wrap (b : writeBuffer) (d : List Byte)
    (h1 : b._bufferLen ≤ b._bufferMax) (h2 : b._buffer.length = b._bufferMax)
    (h3 : b._bufferMax < U64) (hd : d.length < U64)
    (hwrap : U64 ≤ b._bufferLen + d.length) (hbig : b._bufferMax < d.length) :
    b.writeFault d d.length = some WriteFault.bufferNotEmpty := by
  have hA : ¬ b._bufferLen + d.length ≤ b._bufferMax := by omega
  unfold writeBuffer.writeFault
  rw [writeOrFault_cases b d h1 h2 h3 hd, if_neg hA, if_pos hwrap, if_pos hbig]

/-- Counterexample to C14 as stated: from the reachable write-mode state with one byte
buffered and capacity 4, a `write` of length `2^64 - 1` makes the `uint64` sum
`_bufferLen + length` wrap to 0, so the buffer is not flushed, and the direct branch is
entered with a non-empty buffer: the process stops at `assert(_bufferLen == 0)`. -/
theorem direct_write_counterexample :
    Reachable oneBuffered ∧ oneBuffered._bufferMax < hugePayload.length ∧
    hugePayload.length < U64 ∧
    oneBuffered.writeFault hugePayload hugePayload.length
      = some WriteFault.bufferNotEmpty := by
  have hlt : hugePayload.length < U64 := by
    rw [hugePayload_length]
    decide
  have hbig : oneBuffered._bufferMax < hugePayload.length := by
    rw [hugePayload_length]
    decide
  have hwrap : U64 ≤ oneBuffered._bufferLen + hugePayload.length := by
    rw [hugePayload_length]
    decide
  exact ⟨oneBuffered_reachable, hbig, hlt,
    writeFault_wrap oneBuffered hugePayload (by decide) (by decide) (by decide) hlt hwrap hbig⟩

/-- C14 (as amended).  From every reachable state, a `write` whose length exceeds the capacity
and fits with it in the 64-bit address space (capacity + length below `2^64`) flushes first, so
the buffer is empty when the direct branch is taken and `assert(_bufferLen == 0)` holds; the
call returns, the file then holds what it held for this buffer, the bytes that were buffered,
and the payload, in this order, and the buffer is empty after the call. -/
theorem direct_write (b : writeBuffer) (d : List Byte) (h : Reachable b)
    (hbig : b._bufferMax < d.length) (hfit : b._bufferMax + d.length < U64) :
    b.flush._bufferLen = 0 ∧
    b.writeOrFault d d.length = .ok (b.flush.directed d) ∧
    b.write d d.length = some (b.flush.directed d) ∧
    (b.flush.directed d).disk = some (b.onDisk ++ b.buffered ++ d) ∧
    (b.flush.directed d)._bufferLen = 0 := by
  obtain ⟨disk0, mode, C, sofar, hC, hinv⟩ := h.inv
  have hmax := hinv.max_eq
  have hlen := hinv.len_le
  have hbuf := hinv.buf_len
  obtain ⟨f1, _, _, _⟩ := flush_frame b
  have hd : d.length < U64 := by omega
  have hd0 : d.length ≠ 0 := by omega
  have hcase : b.writeOrFault d d.length = .ok (b.flush.directed d) := by
    rw [writeOrFault_cases b d (by omega) (by omega) (by omega) hd, if_neg (by omega),
      if_neg (by omega), if_pos hbig]
  have hlen0 : (b.flush.directed d)._bufferLen = 0 := by
    obtain ⟨w1, _, _, _⟩ := writeToDisk_frame b.flush d d.length
    show (b.flush.writeToDisk d d.length)._bufferLen = 0
    rw [w1, f1]
  refine ⟨f1, hcase, ?_, ?_, hlen0⟩
  · rw [write_eq_writeOrFault, hcase]
  · have hdir := hinv.after_flush.directed d f1 hd0
    obtain ⟨w, hdisk, hs⟩ := hdir.opened (directed_file _ d hd0)
    rw [hlen0, List.take_zero, List.append_nil] at hs
    rw [hdisk, hs, hinv.content, List.append_assoc]

/-- Witness for C14: six bytes written through the append-mode buffer of capacity 4. -/
theorem direct_write_witness :
    Reachable appended ∧ appended._bufferMax < [1, 2, 3, 4, 5, 6].length ∧
    appended.flush._bufferLen = 0 ∧
    appended.writeOrFault [1, 2, 3, 4, 5, 6] [1, 2, 3, 4, 5, 6].length
      = .ok (appended.flush.directed [1, 2, 3, 4, 5, 6]) ∧
    appended.write [1, 2, 3, 4, 5, 6] [1, 2, 3, 4, 5, 6].length
      = some (appended.flush.directed [1, 2, 3, 4, 5, 6]) ∧
    (appended.flush.directed [1, 2, 3, 4, 5, 6]).disk
      = some (appended.onDisk ++ appended.buffered ++ [1, 2, 3, 4, 5, 6]) ∧
    (appended.flush.directed [1, 2, 3, 4, 5, 6])._bufferLen = 0 :=
  ⟨appended_reachable, by decide,
    direct_write appended [1, 2, 3, 4, 5, 6] appended_reachable (by decide) (by decide)⟩

/-- Counterexample to C15 as stated: a write-mode buffer constructed over a file of one byte
has `tell() = 0`, while the file on disk holds one byte and nothing is buffered. -/
theorem tell_counterexample :
    (writeBuffer.create (some [7]) "w" 4).map
      (fun b => (b.tell, (b.disk.getD []).length + b._bufferLen)) = some (0, 1) := by
  decide

/-- C15 (as amended).  After construction in write or append mode and any sequence of `write`
and `flush` calls that returned, with `w` the bytes this buffer has written to the file:
every byte passed to `write` is in `w` or buffered, and `tell()` is the buffered count plus the
length of `w` plus the length the file had when it was opened (zero in write mode), provided
this sum is below `2^64`.  Once the file is open it holds its initial bytes followed by `w`,
so `tell()` is the length of the file plus the buffered count.  A write-mode buffer that has not
opened the file has written nothing and has left the file as it was. -/
theorem tell_accounts (disk0 : Option (List Byte)) (mode : String) (C : Nat) (ops : List Op)
    (b0 b : writeBuffer) (hC : C < U64) (hs : opsSized ops)
    (hc : writeBuffer.create disk0 mode C = some b0) (hr : b0.run ops = some b)
    (hnowrap : (initialBytes disk0 mode).length + (opsBytes ops).length < U64) :
    ∃ w : List Byte,
      w ++ b.buffered = opsBytes ops ∧ b.buffered.length = b._bufferLen ∧
      b.tell = b._bufferLen + w.length + (initialBytes disk0 mode).length ∧
      (b._file = true →
        b.disk = some (initialBytes disk0 mode ++ w) ∧
        b.tell = (b.disk.getD []).length + b._bufferLen) ∧
      (b._file = false → w = [] ∧ b.disk = disk0 ∧ ¬ mode.data.head? = some 'a') := by
  have hinv := BInv.run hC ops b0 b [] (BInv.of_create disk0 mode C b0 hc) hs hr
  rw [List.nil_append] at hinv
  have hbl := hinv.buffered_length
  have hpos : b.tell = (initialBytes disk0 mode).length + (opsBytes ops).length := by
    rw [writeBuffer.tell, hinv.pos]
    exact Nat.mod_eq_of_lt hnowrap
  cases hf : b._file with
  | true =>
    obtain ⟨w, hd, hw⟩ := hinv.opened hf
    have hsum : w.length + b._bufferLen = (opsBytes ops).length := by
      rw [← hw, List.length_append]
      exact congrArg _ hbl.symm
    refine ⟨w, hw, hbl, by omega, fun _ => ⟨hd, ?_⟩, fun hc => by simp at hc⟩
    rw [hd, Option.getD_some, List.length_append]
    omega
  | false =>
    obtain ⟨hm, hd, hw⟩ := hinv.closed hf
    have hsum : b._bufferLen = (opsBytes ops).length := by
      rw [← hw]
      exact hbl.symm
    refine ⟨[], by simpa [writeBuffer.buffered] using hw, hbl, ?_, fun hc => by simp at hc,
      fun _ => ⟨rfl, hd, hm⟩⟩
    simp only [List.length_nil]
    omega

/-- Witness for C15: the append-mode buffer over a file of two bytes. -/
theorem tell_accounts_witness :
    ∃ w : List Byte,
      w ++ appended.buffered
        = opsBytes [Op.write [3, 4, 5], Op.flush, Op.write [6, 7, 8], Op.write [9, 5]] ∧
      appended.buffered.length = appended._bufferLen ∧
      appended.tell = appended._bufferLen + w.length + (initialBytes (some [1, 2]) "a").length ∧
      (appended._file = true →
        appended.disk = some (initialBytes (some [1, 2]) "a" ++ w) ∧
        appended.tell = (appended.disk.getD []).length + appended._bufferLen) ∧
      (appended._file = false →
        w = [] ∧ appended.disk = some [1, 2] ∧ ¬ "a".data.head? = some 'a') :=
  tell_accounts (some [1, 2]) "a" 4
    [Op.write [3, 4, 5], Op.flush, Op.write [6, 7, 8], Op.write [9, 5]] _ appended
    (by decide) (by unfold opsSized; decide) rfl (by decide) (by decide)

/-! ### The file is opened by the first transfer of bytes -/

theorem writeToDisk_opens (b : writeBuffer) (d : List Byte) (n : Nat) (hn : n ≠ 0) :
    (b.writeToDisk d n)._file = true := by
  unfold writeBuffer.writeToDisk writeBuffer.open_
  rw [if_neg hn]
  split
  · assumption
  · rfl

theorem flush_zero (b : writeBuffer) (h : b._bufferLen = 0) : b.flush = b := by
  obtain ⟨fm, file, pos, len, mx, buf, disk⟩ := b
  simp only at h
  subst h
  simp [writeBuffer.flush, writeBuffer.writeToDisk]

theorem flush_opens (b : writeBuffer) (h : b._bufferLen ≠ 0) : b.flush._file = true :=
  writeToDisk_opens b b._buffer b._bufferLen h

theorem write_result (b b1 : writeBuffer) (d : List Byte) (n : Nat)
    (hw : b.write d n = some b1) :
    (b._bufferMax < n → b1._file = true) ∧
    (¬ b._bufferMax < n →
      b1._file = (if b._bufferMax < (b._bufferLen + n) % U64 then b.flush else b)._file ∧
      b1.disk = (if b._bufferMax < (b._bufferLen + n) % U64 then b.flush else b).disk) := by
  obtain ⟨_, f2, _, _⟩ := flush_frame b
  have hmax : (if b._bufferMax < (b._bufferLen + n) % U64 then b.flush else b)._bufferMax
      = b._bufferMax := by
    split
    · exact f2
    · rfl
  unfold writeBuffer.write at hw
  simp only [] at hw
  generalize (if b._bufferMax < (b._bufferLen + n) % U64 then b.flush else b) = b2
    at hw hmax ⊢
  rw [hmax] at hw
  refine ⟨fun hbig => ?_, fun hsmall => ?_⟩
  · have hn : n ≠ 0 := by omega
    rw [if_pos hbig] at hw
    by_cases h0 : b2._bufferLen = 0
    · rw [if_pos h0, Option.some_bind] at hw
      split_ifs at hw
      obtain rfl := Option.some.inj hw
      exact writeToDisk_opens _ d n hn
    · rw [if_neg h0] at hw
      cases hw
  · rw [if_neg hsmall] at hw
    by_cases hfit : b2._bufferLen + n ≤ b2._buffer.length
    · rw [if_pos hfit, Option.some_bind] at hw
      split_ifs at hw
      obtain rfl := Option.some.inj hw
      exact ⟨rfl, rfl⟩
    · rw [if_neg hfit] at hw
      cases hw

theorem write_opens_iff (b b1 : writeBuffer) (d : List Byte) (n : Nat)
    (hclosed : b._file = false) (hw : b.write d n = some b1) :
    (b1._file = true ↔ b.transfers n) ∧ (b1._file = false → b1.disk = b.disk) := by
  obtain ⟨hdir, hcopy⟩ := write_result b b1 d n hw
  unfold writeBuffer.transfers
  by_cases hbig : b._bufferMax < n
  · have h1 := hdir hbig
    exact ⟨⟨fun _ => Or.inr hbig, fun _ => h1⟩, fun h0 => by simp [h1] at h0⟩
  · obtain ⟨hfile, hdisk⟩ := hcopy hbig
    by_cases hflush : b._bufferMax < (b._bufferLen + n) % U64
    · rw [if_pos hflush] at hfile hdisk
      by_cases hlen : b._bufferLen = 0
      · rw [flush_zero b hlen] at hfile hdisk
        rw [hfile, hclosed]
        exact ⟨⟨fun h => by simp at h, fun h => by rcases h with ⟨_, h⟩ | h <;> contradiction⟩,
          fun _ => hdisk⟩
      · have h1 : b1._file = true := by rw [hfile, flush_opens b hlen]
        exact ⟨⟨fun _ => Or.inl ⟨hflush, hlen⟩, fun _ => h1⟩, fun h0 => by simp [h1] at h0⟩
    · rw [if_neg hflush] at hfile hdisk
      rw [hfile, hclosed]
      exact ⟨⟨fun h => by simp at h, fun h => by rcases h with ⟨h, _⟩ | h <;> contradiction⟩,
        fun _ => hdisk⟩

theorem quietWrites_closed :
    ∀ (ds : List (List Byte)) (b b1 : writeBuffer), b._file = false → quietWrites b ds →
      b.writes ds = some b1 → b1._file = false ∧ b1.disk = b.disk
  | [], b, b1, hc, _, hw => by
    simp only [writeBuffer.writes, Option.some.injEq] at hw
    subst hw
    exact ⟨hc, rfl⟩
  | d :: ds, b, b1, hc, hq, hw => by
    obtain ⟨hno, hrest⟩ := hq
    simp only [writeBuffer.writes] at hw
    cases hstep : b.write d d.length with
    | none => simp [hstep] at hw
    | some b2 =>
      rw [hstep, Option.some_bind] at hw
      obtain ⟨hiff, hdisk⟩ := write_opens_iff b b2 d d.length hc hstep
      have hc2 : b2._file = false := by
        cases hf : b2._file with
        | false => rfl
        | true => exact absurd (hiff.mp hf) hno
      obtain ⟨h1, h2⟩ := quietWrites_closed ds b2 b1 hc2 (hrest b2 hstep) hw
      exact ⟨h1, by rw [h2, hdisk hc2]⟩

theorem copied_frame (b : writeBuffer) (d : List Byte)
    (hfit : b._bufferLen + d.length ≤ b._buffer.length) :
    (b.copied d)._file = b._file ∧ (b.copied d).disk = b.disk ∧
    (b.copied d)._bufferMax = b._bufferMax ∧
    (b.copied d)._bufferLen = b._bufferLen + d.length ∧
    (b.copied d)._buffer.length = b._buffer.length := by
  refine ⟨rfl, rfl, rfl, rfl, ?_⟩
  simp only [writeBuffer.copied, List.length_append, List.length_take, List.length_drop,
    List.take_length]
  omega

theorem fitting_writes :
    ∀ (ds : List (List Byte)) (b : writeBuffer), b._buffer.length = b._bufferMax →
      b._bufferMax < U64 → b._bufferLen + totalLength ds ≤ b._bufferMax →
      ∃ b1, b.writes ds = some b1 ∧ b1._file = b._file ∧ b1.disk = b.disk ∧
        b1._bufferLen = b._bufferLen + totalLength ds
  | [], b, _, _, _ => ⟨b, rfl, rfl, rfl, by simp [totalLength]⟩
  | d :: ds, b, h2, h3, hfit => by
    have htl : totalLength (d :: ds) = d.length + totalLength ds := by
      simp [totalLength]
    rw [htl] at hfit
    have hA : b._bufferLen + d.length ≤ b._bufferMax := by omega
    have hw : b.write d d.length = some (b.copied d) := by
      rw [write_eq_writeOrFault,
        writeOrFault_cases b d (by omega) h2 h3 (by omega), if_pos hA]
    obtain ⟨c1, c2, c3, c4, c5⟩ := copied_frame b d (by omega)
    obtain ⟨b1, hws, hf, hd, hl⟩ :=
      fitting_writes ds (b.copied d) (by omega) (by omega) (by omega)
    refine ⟨b1, ?_, by rw [hf, c1], by rw [hd, c2], by rw [hl, c4, htl]; omega⟩
    simp [writeBuffer.writes, hw, hws]

/-- C18.  A write-mode buffer is constructed with the file unopened and untouched.  A `write`
from a state with the file unopened opens it exactly when it moves a non-zero number of bytes
to disk (it flushes a non-empty buffer or takes the direct branch), and otherwise leaves the
file as it is; so after any sequence of writes none of which moves bytes to disk, and after any
sequence of writes that fit in the buffer together, the file is still unopened and untouched.
A flush of an empty buffer changes nothing, and a buffer destroyed with zero bytes written
leaves the file as it was: absent if it was absent. -/
theorem lazy_open (disk0 : Option (List Byte)) (C : Nat) (hC : C < U64) :
    ∃ b0, writeBuffer.create disk0 "w" C = some b0 ∧ b0._file = false ∧ b0.disk = disk0 ∧
      (∀ ds b, quietWrites b0 ds → b0.writes ds = some b → b._file = false ∧ b.disk = disk0) ∧
      (∀ ds, totalLength ds ≤ C →
        ∃ b, b0.writes ds = some b ∧ b._file = false ∧ b.disk = disk0) ∧
      (∀ (b b1 : writeBuffer) (d : List Byte) (n : Nat), b._file = false →
        b.write d n = some b1 →
        (b1._file = true ↔ b.transfers n) ∧ (b1._file = false → b1.disk = b.disk)) ∧
      (∀ b : writeBuffer, b._bufferLen = 0 → b.flush = b) ∧
      (∀ ds : List (List Byte), ds.flatten = [] →
        writeBuffer.session disk0 "w" C ds = some disk0) := by
  refine ⟨_, rfl, rfl, rfl, fun ds b hq hw => ?_, fun ds htot => ?_,
    fun b b1 d n hc hw => write_opens_iff b b1 d n hc hw, flush_zero, fun ds hflat => ?_⟩
  · exact quietWrites_closed ds _ b rfl hq hw
  · obtain ⟨b, hw, hf, hd, _⟩ := fitting_writes ds
      { _filemode := "w", _file := false, _filePos := 0, _bufferLen := 0, _bufferMax := C,
        _buffer := List.replicate C 0, disk := disk0 }
      (by simp) hC (by simpa using htot)
    exact ⟨b, hw, hf, hd⟩
  · have hfit : ∀ d ∈ ds, C + d.length < U64 := by
      intro d hd
      have : d = [] := List.flatten_eq_nil_iff.mp hflat d hd
      subst this
      simpa using hC
    obtain ⟨b0, b, _, _, h, hs⟩ := session_eq disk0 C ds hfit
    rw [hs, h.destroy, if_pos hflat]

/-- Witness for C18: capacity 4 over a file that holds one byte. -/
theorem lazy_open_witness :
    ∃ b0, writeBuffer.create (some [7]) "w" 4 = some b0 ∧ b0._file = false ∧ b0.disk = (some [7]) ∧
      (∀ ds b, quietWrites b0 ds → b0.writes ds = some b → b._file = false ∧ b.disk = (some [7])) ∧
      (∀ ds, totalLength ds ≤ 4 →
        ∃ b, b0.writes ds = some b ∧ b._file = false ∧ b.disk = (some [7])) ∧
      (∀ (b b1 : writeBuffer) (d : List Byte) (n : Nat), b._file = false →
        b.write d n = some b1 →
        (b1._file = true ↔ b.transfers n) ∧ (b1._file = false → b1.disk = b.disk)) ∧
      (∀ b : writeBuffer, b._bufferLen = 0 → b.flush = b) ∧
      (∀ ds : List (List Byte), ds.flatten = [] →
        writeBuffer.session (some [7]) "w" 4 ds = some (some [7])) :=
  lazy_open (some [7]) 4 (by decide)

end Canu
